import Mathlib

/-!
Verification development for the `pdf_xtractor` repository.

The algorithmic core of the repository is `src/converter.py`:
`PDFProcessor._extract_numeric_values` (a regex-driven numeric value
extractor with context tagging, deduplication and a noise filter) and
`PDFProcessor.process` (the export-orchestration pipeline).

This file gives a shallow embedding of both, translated from the Python
source:

* Strings are `List Char` / `String`; text offsets are `Nat`.
* Python `float` values produced by parsing decimal strings are modelled
  exactly as rationals (`ℚ`); parse failure is `Option.none`.
* The ten regular expressions of the pattern catalog are embedded as
  explicit matcher functions reproducing Python `re` semantics (greedy
  quantifiers with backtracking, alternation preference, `\b` word
  boundaries, `re.IGNORECASE`) on the ASCII fragment exercised here.
* `re.finditer` is the scan `scanAux`: left-to-right, non-overlapping,
  restarting right after each match.
* The external document-conversion collaborator (IBM Docling) is opaque:
  a converted document is a record of the outcomes of the operations
  `process` invokes on it, each fallible operation an `Except`.
  Filesystem writes are modelled as always succeeding list appends.
-/

namespace PdfX

/-! ### Character classes (Python `re`, ASCII fragment) -/

/-- `\s` whitespace class (ASCII). -/
def isSpaceChar (c : Char) : Bool :=
  c = ' ' || c = '\t' || c = '\n' || c = '\x0b' || c = '\x0c' || c = '\r'

/-- Word character for `\b` word boundaries (ASCII): `[A-Za-z0-9_]`. -/
def isWordChar (c : Char) : Bool := c.isAlphanum || c = '_'

/-- The character class `[\d,\.]` used by the currency/percentage patterns. -/
def isNumClass (c : Char) : Bool := c.isDigit || c = ',' || c = '.'

/-- The currency-symbol class `[\$\€\£\¥]`. -/
def isCurrencySym (c : Char) : Bool := c = '$' || c = '€' || c = '£' || c = '¥'

/-- Date separator class dash-or-slash. -/
def isDateSep (c : Char) : Bool := c = '-' || c = '/'

/-- Phone separator class `[-.\s]`. -/
def isPhoneSep (c : Char) : Bool := c = '-' || c = '.' || isSpaceChar c

/-- Word-boundary test at the start of a match whose first character is a
digit or currency-code letter (a word character): the boundary holds iff the
preceding character is absent or not a word character. -/
def startBd (prev : Option Char) : Bool :=
  match prev with
  | none => true
  | some c => !(isWordChar c)

/-- Word-boundary test after a match whose last character is a digit: the
boundary holds iff the following character is absent or not a word
character. -/
def endBd (rest : List Char) : Bool :=
  match rest with
  | [] => true
  | c :: _ => !(isWordChar c)

/-! ### Matcher primitives

A matcher takes the remaining text and the character just before the current
position (for `\b`) and returns the consumed prefix on success. -/

def Matcher : Type := List Char → Option Char → Option (List Char)

/-- Consume exactly `n` characters all satisfying `p` (for `\d{n}`). -/
def takeExact (p : Char → Bool) : Nat → List Char → Option (List Char × List Char)
  | 0, s => some ([], s)
  | _ + 1, [] => none
  | n + 1, c :: rest =>
    if p c then (takeExact p n rest).map (fun pr => (c :: pr.1, pr.2)) else none

/-- Candidates for a counted quantifier `p{..}`, in greedy preference order
given by `counts` (e.g. `[2,1]` for `\d{1,2}`). -/
def dCands (p : Char → Bool) (counts : List Nat) (s : List Char) :
    List (List Char × List Char) :=
  counts.filterMap (fun n => takeExact p n s)

/-- Candidates for an optional single-character class `X?`: greedily prefer
the character, then the empty alternative. -/
def optSepCands (p : Char → Bool) (s : List Char) : List (List Char × List Char) :=
  (match s with
   | c :: r => if p c then [([c], r)] else []
   | [] => []) ++ [([], s)]

/-- Case-insensitive literal match (`re.IGNORECASE`); the consumed text keeps
its original case, the pattern literal is upper-case. -/
def matchCI : List Char → List Char → Option (List Char × List Char)
  | [], s => some ([], s)
  | _ :: _, [] => none
  | p :: ps, c :: cs =>
    if c.toUpper = p then (matchCI ps cs).map (fun pr => (c :: pr.1, pr.2)) else none

/-- The ISO currency codes of the second catalog pattern, in alternation
order: `USD|EUR|GBP|JPY|CNY`. -/
def currencyCodes : List (List Char) :=
  [['U','S','D'], ['E','U','R'], ['G','B','P'], ['J','P','Y'], ['C','N','Y']]

/-- First alternative of an alternation over literals. -/
def tryCodes : List (List Char) → List Char → Option (List Char × List Char)
  | [], _ => none
  | cd :: rest, s =>
    match matchCI cd s with
    | some r => some r
    | none => tryCodes rest s

/-! ### The ten catalog patterns (converter.py lines 118-138) -/

/-- Pattern 1: `[\$\€\£\¥]\s*[\d,\.]+(?:\.\d{2})?` (currency, high).
After the greedy `[\d,\.]+` the optional `\.\d{2}` can only match empty. -/
def matchCurSym : Matcher := fun s _ =>
  match s with
  | [] => none
  | c :: rest =>
    if isCurrencySym c then
      let sp := rest.takeWhile isSpaceChar
      let r1 := rest.dropWhile isSpaceChar
      let num := r1.takeWhile isNumClass
      if num.isEmpty then none else some (c :: (sp ++ num))
    else none

/-- First alternative of pattern 2: `(?:USD|EUR|GBP|JPY|CNY)\s*[\d,\.]+`. -/
def curCodeAlt1 (s : List Char) : Option (List Char) :=
  match tryCodes currencyCodes s with
  | none => none
  | some (cd, r1) =>
    let sp := r1.takeWhile isSpaceChar
    let r2 := r1.dropWhile isSpaceChar
    let num := r2.takeWhile isNumClass
    if num.isEmpty then none else some (cd ++ sp ++ num)

/-- Second alternative of pattern 2: `[\d,\.]+\s*(?:USD|EUR|GBP|JPY|CNY)`. -/
def curCodeAlt2 (s : List Char) : Option (List Char) :=
  let num := s.takeWhile isNumClass
  if num.isEmpty then none
  else
    let r1 := s.dropWhile isNumClass
    let sp := r1.takeWhile isSpaceChar
    let r2 := r1.dropWhile isSpaceChar
    match tryCodes currencyCodes r2 with
    | none => none
    | some (cd, _) => some (num ++ sp ++ cd)

/-- Pattern 2 (currency, high): the alternation, left alternative first. -/
def matchCurCode : Matcher := fun s _ =>
  match curCodeAlt1 s with
  | some m => some m
  | none => curCodeAlt2 s

/-- Pattern 3: `[\d,\.]+\s*%` (percentage, high). -/
def matchPercent : Matcher := fun s _ =>
  let num := s.takeWhile isNumClass
  if num.isEmpty then none
  else
    let r1 := s.dropWhile isNumClass
    let sp := r1.takeWhile isSpaceChar
    match r1.dropWhile isSpaceChar with
    | '%' :: _ => some (num ++ sp ++ ['%'])
    | _ => none

/-- Pattern 4: digits 4, sep, digits 1-2, sep, digits 1-2 with word boundaries, sep being dash or slash (date, high). -/
def matchDateISO : Matcher := fun s prev =>
  if startBd prev then
    match takeExact Char.isDigit 4 s with
    | none => none
    | some (d4, r1) =>
      match r1 with
      | c1 :: r2 =>
        if isDateSep c1 then
          (dCands Char.isDigit [2, 1] r2).findSome? (fun pr1 =>
            match pr1.2 with
            | c2 :: r4 =>
              if isDateSep c2 then
                (dCands Char.isDigit [2, 1] r4).findSome? (fun pr2 =>
                  if endBd pr2.2 then some (d4 ++ c1 :: (pr1.1 ++ c2 :: pr2.1))
                  else none)
              else none
            | [] => none)
        else none
      | [] => none
  else none

/-- Pattern 5: digits 1-2, sep, digits 1-2, sep, digits 2-4 with word boundaries, sep being dash or slash (date, medium). -/
def matchDateDMY : Matcher := fun s prev =>
  if startBd prev then
    (dCands Char.isDigit [2, 1] s).findSome? (fun pr1 =>
      match pr1.2 with
      | c1 :: r2 =>
        if isDateSep c1 then
          (dCands Char.isDigit [2, 1] r2).findSome? (fun pr2 =>
            match pr2.2 with
            | c2 :: r4 =>
              if isDateSep c2 then
                (dCands Char.isDigit [4, 3, 2] r4).findSome? (fun pr3 =>
                  if endBd pr3.2 then
                    some (pr1.1 ++ c1 :: (pr2.1 ++ c2 :: pr3.1))
                  else none)
              else none
            | [] => none)
        else none
      | [] => none)
  else none

/-- Pattern 6: `\b(?:19|20)\d{2}\b` (year, medium). -/
def matchYear : Matcher := fun s prev =>
  if startBd prev then
    match s with
    | a :: b :: c :: d :: rest =>
      if ((a = '1' && b = '9') || (a = '2' && b = '0')) && c.isDigit && d.isDigit
          && endBd rest
      then some [a, b, c, d] else none
    | _ => none
  else none

/-- Pattern 7: `\b\d{3}[-.\s]?\d{3}[-.\s]?\d{4}\b` (phone, high). -/
def matchPhone : Matcher := fun s prev =>
  if startBd prev then
    match takeExact Char.isDigit 3 s with
    | none => none
    | some (g1, r1) =>
      (optSepCands isPhoneSep r1).findSome? (fun pr1 =>
        match takeExact Char.isDigit 3 pr1.2 with
        | none => none
        | some (g2, r2) =>
          (optSepCands isPhoneSep r2).findSome? (fun pr2 =>
            match takeExact Char.isDigit 4 pr2.2 with
            | none => none
            | some (g3, r3) =>
              if endBd r3 then some (g1 ++ pr1.1 ++ g2 ++ pr2.1 ++ g3) else none))
  else none

/-- One thousands group `,\d{3}` of pattern 8. -/
def groupOne (s : List Char) : Option (List Char × List Char) :=
  match s with
  | ',' :: rest => (takeExact Char.isDigit 3 rest).map (fun pr => (',' :: pr.1, pr.2))
  | _ => none

/-- Worker for `groupCands`: structural recursion on a fuel that bounds the
number of groups (each group consumes four characters, so the length of the
remaining text is a sufficient fuel). -/
def groupCandsF : Nat → List Char → List (List Char × List Char)
  | 0, _ => []
  | fuel + 1, s =>
    match groupOne s with
    | none => []
    | some (g, r) => ((groupCandsF fuel r).map (fun pr => (g ++ pr.1, pr.2))) ++ [(g, r)]

/-- Candidates for `(?:,\d{3})+` (one or more groups), greedy: more groups
preferred. -/
def groupCands (s : List Char) : List (List Char × List Char) :=
  groupCandsF s.length s

/-- Candidates for the optional fraction `(?:\.\d+)?` of pattern 8, greedy:
the full fraction (with maximal digit run) first, then empty.  A shorter
digit run never helps: it would leave a digit right after the match, so the
trailing `\b` would still fail. -/
def optFracCands (s : List Char) : List (List Char × List Char) :=
  (match s with
   | '.' :: r =>
     let ds := r.takeWhile Char.isDigit
     if ds.isEmpty then [] else [('.' :: ds, r.dropWhile Char.isDigit)]
   | _ => []) ++ [([], s)]

/-- Pattern 8: `\b\d{1,3}(?:,\d{3})+(?:\.\d+)?\b` (quantity, medium). -/
def matchQuantity : Matcher := fun s prev =>
  if startBd prev then
    (dCands Char.isDigit [3, 2, 1] s).findSome? (fun pr1 =>
      (groupCands pr1.2).findSome? (fun pr2 =>
        (optFracCands pr2.2).findSome? (fun pr3 =>
          if endBd pr3.2 then some (pr1.1 ++ pr2.1 ++ pr3.1) else none)))
  else none

/-- Pattern 9: `\b\d+\.\d+\b` (decimal, medium). -/
def matchDecimal : Matcher := fun s prev =>
  if startBd prev then
    let d1 := s.takeWhile Char.isDigit
    if d1.isEmpty then none
    else
      match s.dropWhile Char.isDigit with
      | '.' :: r2 =>
        let d2 := r2.takeWhile Char.isDigit
        if d2.isEmpty then none
        else if endBd (r2.dropWhile Char.isDigit) then some (d1 ++ '.' :: d2)
        else none
      | _ => none
  else none

/-- Pattern 10: `\b\d+\b` (integer, low). -/
def matchInteger : Matcher := fun s prev =>
  if startBd prev then
    let d := s.takeWhile Char.isDigit
    if d.isEmpty then none
    else if endBd (s.dropWhile Char.isDigit) then some d else none
  else none

/-! ### The pattern catalog and the finditer scan -/

/-- The ten catalog entries, identified by position. -/
inductive PatKind where
  | curSym | curCode | percent | dateISO | dateDMY | year | phone | quantity
  | decimal | integer
deriving DecidableEq

/-- Dispatch a catalog entry to its matcher. -/
def patMatch : PatKind → Matcher
  | .curSym => matchCurSym
  | .curCode => matchCurCode
  | .percent => matchPercent
  | .dateISO => matchDateISO
  | .dateDMY => matchDateDMY
  | .year => matchYear
  | .phone => matchPhone
  | .quantity => matchQuantity
  | .decimal => matchDecimal
  | .integer => matchInteger

/-- The `patterns` list of `_extract_numeric_values` (lines 118-138):
matcher, default tag, base confidence, in declaration order. -/
def catalog : List (PatKind × String × String) :=
  [(.curSym, "currency", "high"),
   (.curCode, "currency", "high"),
   (.percent, "percentage", "high"),
   (.dateISO, "date", "high"),
   (.dateDMY, "date", "medium"),
   (.year, "year", "medium"),
   (.phone, "phone", "high"),
   (.quantity, "quantity", "medium"),
   (.decimal, "decimal", "medium"),
   (.integer, "integer", "low")]

/-- `re.finditer`: scan left to right; at the first position where the
pattern matches, yield `(start, matched text)` and continue right after the
match (one character further for an empty match).  `prev` carries the
character before the current position for word-boundary tests.  Structural
recursion on a fuel: every step consumes at least one character, so the
length of the remaining text is a sufficient fuel. -/
def scanAux (m : Matcher) : Nat → List Char → Nat → Option Char → List (Nat × List Char)
  | 0, _, _, _ => []
  | _ + 1, [], _, _ => []
  | fuel + 1, c :: rest, pos, prev =>
    match m (c :: rest) prev with
    | none => scanAux m fuel rest (pos + 1) (some c)
    | some [] => (pos, []) :: scanAux m fuel rest (pos + 1) (some c)
    | some (a :: as) =>
      (pos, a :: as) ::
        scanAux m fuel (rest.drop as.length) (pos + (as.length + 1)) ((a :: as).getLast?)

/-- All matches of one pattern over the whole text. -/
def allMatches (m : Matcher) (text : List Char) : List (Nat × List Char) :=
  scanAux m text.length text 0 none

/-! ### Numeric normalization (lines 172-186) -/

/-- The characters kept by `re.sub(..., value_str)`: digits, dot, comma,
minus. -/
def keepClean (c : Char) : Bool := c.isDigit || c = '.' || c = ',' || c = '-'

/-- Python `str.rfind`: highest index of `c`, `-1` if absent. -/
def rfindIdx (l : List Char) (c : Char) : Int :=
  l.enum.foldl (fun acc p => if p.2 = c then (p.1 : Int) else acc) (-1)

/-- The separator normalization of the cleaned value: with both `.` and `,`
present, the last-occurring separator becomes the decimal point and the
other one is dropped; otherwise `,` is dropped as grouping. -/
def cleanValue (s : List Char) : List Char :=
  let kept := s.filter keepClean
  if kept.contains ',' && kept.contains '.' then
    if rfindIdx kept ',' > rfindIdx kept '.' then
      (kept.filter (fun c => !(c = '.'))).map (fun c => if c = ',' then '.' else c)
    else kept.filter (fun c => !(c = ','))
  else kept.filter (fun c => !(c = ','))

/-- Value of a digit run. -/
def digitsToNat (l : List Char) : Nat :=
  l.foldl (fun n c => n * 10 + (c.toNat - 48)) 0

/-- Python `float(s)` restricted to the alphabet of cleaned values
(digits, dot, minus): optional leading minus, then digits with at most one
dot and at least one digit; exact rational result.  Anything else (empty
string, stray minus, several dots, a dot alone) raises in Python and is
`none` here. -/
def parseUnsigned (s : List Char) : Option ℚ :=
  let ip := s.takeWhile Char.isDigit
  match s.dropWhile Char.isDigit with
  | [] => if ip.isEmpty then none else some ((digitsToNat ip : ℚ))
  | '.' :: r2 =>
    let fp := r2.takeWhile Char.isDigit
    if (r2.dropWhile Char.isDigit).isEmpty && !(ip.isEmpty && fp.isEmpty) then
      some (mkRat (digitsToNat ip * 10 ^ fp.length + digitsToNat fp)
        (10 ^ fp.length))
    else none
  | _ => none

/-- Signed variant of `parseUnsigned`. -/
def parseFloatQ (s : List Char) : Option ℚ :=
  match s with
  | '-' :: rest => (parseUnsigned rest).map (fun q => -q)
  | _ => parseUnsigned s

/-! ### Context tagging (lines 140-153 and 188-198) -/

/-- The `context_tags` keyword table, in declaration (= scan) order. -/
def contextTags : List (String × List String) :=
  [("price", ["price", "cost", "fee", "charge", "amount", "total", "subtotal",
              "payment", "paid"]),
   ("quantity", ["qty", "quantity", "count", "number", "units", "items",
                 "pieces", "pcs"]),
   ("percentage", ["percent", "rate", "ratio", "discount", "tax", "vat",
                   "interest"]),
   ("date", ["date", "dated", "issued", "due", "expires", "valid", "from",
             "to", "until"]),
   ("id", ["id", "number", "no", "ref", "reference", "code", "invoice",
           "order", "account"]),
   ("measurement", ["kg", "lb", "oz", "g", "mg", "km", "mi", "cm", "mm", "m",
                    "ft", "in", "l", "ml", "gal"]),
   ("temperature", ["°c", "°f", "celsius", "fahrenheit", "temp",
                    "temperature"]),
   ("dimension", ["width", "height", "length", "size", "dimension", "area",
                  "volume"]),
   ("time", ["hour", "minute", "second", "hr", "min", "sec", "am", "pm"]),
   ("age", ["age", "years old", "year old", "yo"]),
   ("score", ["score", "rating", "grade", "points", "marks"])]

/-- Lower-case a character list (Python `str.lower`, ASCII). -/
def toLowerList (l : List Char) : List Char := l.map Char.toLower

/-- Does `hay` start with `needle`? -/
def startsWithL : List Char → List Char → Bool
  | [], _ => true
  | _ :: _, [] => false
  | a :: as, b :: bs => a = b && startsWithL as bs

/-- Python substring containment `needle in hay`. -/
def containsL (hay needle : List Char) : Bool :=
  match hay with
  | [] => needle.isEmpty
  | _ :: t => startsWithL needle hay || containsL t needle

/-- First keyword category whose trigger set hits the lowered context
(first-match-wins over `contextTags` order, Python `kw in context_lower`). -/
def keywordHit (ctxLower : List Char) : Option String :=
  contextTags.findSome? (fun pr =>
    if pr.2.any (fun kw => containsL ctxLower kw.data) then some pr.1 else none)

/-- The tags context may specialize: `['integer', 'decimal', 'quantity']`. -/
def genericTags : List String := ["integer", "decimal", "quantity"]

/-- Lines 188-198: on the first keyword hit, and only for a generic default
tag, overwrite the tag and upgrade a `medium` confidence to `high`.  The
returned confidence is the (possibly mutated) loop variable `confidence`,
which threads on to later matches of the same pattern. -/
def applyContext (defaultTag conf : String) (ctxLower : List Char) :
    String × String :=
  match keywordHit ctxLower with
  | none => (defaultTag, conf)
  | some cat =>
    if defaultTag ∈ genericTags then
      (cat, if conf = "medium" then "high" else conf)
    else (defaultTag, conf)

/-! ### The extractor (lines 108-217) -/

/-- One extracted record, exactly the `ExtractedValue` dataclass. -/
structure ExtractedValue where
  value : String
  numeric_value : ℚ
  tag : String
  context : String
  confidence : String
deriving DecidableEq, Repr

/-- An `ExtractedValue` together with its provenance (catalog index and
match start offset), used to state ordering and dedup invariants. -/
structure TaggedRecord where
  patIdx : Nat
  start : Nat
  ev : ExtractedValue
deriving DecidableEq, Repr

/-- Python slice `l[a:b]` for `0 ≤ a ≤ b`. -/
def pySlice (l : List Char) (a b : Nat) : List Char := (l.take b).drop a

/-- Python `str.strip()`. -/
def stripEnds (l : List Char) : List Char :=
  ((l.dropWhile isSpaceChar).reverse.dropWhile isSpaceChar).reverse

/-- Lines 167-170: ±50-character window, newlines to spaces, trimmed. -/
def contextOf (text : List Char) (st len : Nat) : List Char :=
  stripEnds ((pySlice text (st - 50) (st + len + 50)).map
    (fun c => if c = '\n' then ' ' else c))

/-- Build the record for one raw match; returns the record and the updated
threaded confidence. -/
def mkRecord (text : List Char) (dtag conf : String) (st : Nat)
    (m : List Char) : ExtractedValue × String :=
  let ctx := contextOf text st m.length
  let numeric := (parseFloatQ (cleanValue m)).getD 0
  let tc := applyContext dtag conf (toLowerList ctx)
  (⟨String.mk m, numeric, tc.1, String.mk ctx, tc.2⟩, tc.2)

/-- The inner loop of lines 157-206 for one pattern: fold over the matches,
skipping seen `(start, text)` keys, threading the `confidence` variable and
the `seen_values` set. -/
def processMatches (text : List Char) (patIdx : Nat) (dtag : String) :
    List (Nat × List Char) → String → List (Nat × String) →
    List TaggedRecord × String × List (Nat × String)
  | [], conf, seen => ([], conf, seen)
  | (st, m) :: rest, conf, seen =>
    let key : Nat × String := (st, String.mk m)
    if key ∈ seen then processMatches text patIdx dtag rest conf seen
    else
      let pr := mkRecord text dtag conf st m
      let out := processMatches text patIdx dtag rest pr.2 (key :: seen)
      (⟨patIdx, st, pr.1⟩ :: out.1, out.2)

/-- The outer loop over the catalog, threading `seen_values`. -/
def runCatalog (text : List Char) :
    List (Nat × PatKind × String × String) → List (Nat × String) →
    List TaggedRecord
  | [], _ => []
  | (pi, pk, dtag, conf) :: rest, seen =>
    let res := processMatches text pi dtag (allMatches (patMatch pk) text) conf seen
    res.1 ++ runCatalog text rest res.2.2

/-- The `extracted` list of line 115 after all patterns have been scanned
(before the noise filter), with provenance. -/
def extractedPre (text : List Char) : List TaggedRecord :=
  runCatalog text catalog.enum []

/-- The noise predicate of line 213: bare small integers. -/
def isNoise (ev : ExtractedValue) : Bool :=
  ev.tag == "integer" && ev.confidence == "low" && decide (ev.numeric_value < 10)

/-- `PDFProcessor._extract_numeric_values`. -/
def extractNumericValues (text : String) : List ExtractedValue :=
  ((extractedPre text.data).filter (fun r => !(isNoise r.ev))).map
    (fun r => r.ev)

/-! ### The export pipeline (`PDFProcessor.process`, lines 231-479)

The external document collaborator is opaque: a converted document is the
record of the outcomes of the operations `process` performs on it.  Each
fallible operation is an `Except String`; a `.error` models the Python call
raising.  Filesystem writes always succeed in this model, so the only
failure sources after conversion are the document operations.  File
contents are carried symbolically in `FileContent`. -/

/-- The `ExportOptions` dataclass (lines 28-37). -/
structure ExportOptions where
  json : Bool := true
  markdown : Bool := true
  csv : Bool := true
  excel : Bool := true
  html : Bool := true
  images : Bool := true
  extract_values : Bool := true
deriving DecidableEq, Repr

/-- The `ProcessingResult` dataclass (lines 50-59). -/
structure ProcessingResult where
  success : Bool
  message : String
  output_files : List String
  table_count : Nat := 0
  page_count : Nat := 0
  picture_count : Nat := 0
  extracted_values_count : Nat := 0
deriving DecidableEq, Repr

instance {ε α : Type} [DecidableEq ε] [DecidableEq α] : DecidableEq (Except ε α)
  | .ok x, .ok y => decidable_of_iff (x = y) (by simp)
  | .error x, .error y => decidable_of_iff (x = y) (by simp)
  | .ok _, .error _ => .isFalse (by simp)
  | .error _, .ok _ => .isFalse (by simp)

/-- A converted document: the outcomes of every operation `process` may
invoke on the object returned by the conversion collaborator.
`export_to_html = none` models the attribute being absent. -/
structure Doc where
  export_to_dict : Except String String
  export_to_markdown : Except String String
  export_to_html : Option (Except String String)
  tables : List (Except String Unit)
  pictures : List (Except String (Option Unit))
  key_value_items : List (Except String (Option String))
  form_items : List (Except String (Option String))
  pages : Option Nat
deriving DecidableEq, Repr

/-- One row of the per-tag summary sheet written to the extracted-values
workbook (lines 369-372): aggregation of `numeric_value` grouped by tag. -/
structure SummaryRow where
  tag : String
  count : Nat
  sum : ℚ
  mean : ℚ
  min : ℚ
  max : ℚ
deriving DecidableEq, Repr

/-- Symbolic content of a produced artifact. -/
inductive FileContent where
  | jsonDoc (d : String)
  | mdFile (md : String)
  | htmlFile (h : String)
  | tablesXlsx (sheets : List String)
  | tableCsv (sheet : String)
  | valuesJson (vs : List ExtractedValue)
  | valuesCsv (vs : List ExtractedValue)
  | valuesXlsx (vs : List ExtractedValue) (summary : List SummaryRow)
  | figurePng
  | kvJson (entries : List String)
  | formJson (entries : List String)
deriving DecidableEq, Repr

/-- `pandas.DataFrame.round(2)`: round to two decimals, ties to even. -/
def round2 (q : ℚ) : ℚ :=
  let x := q * 100
  let f : ℤ := ⌊x⌋
  let r := x - (f : ℚ)
  let n : ℤ :=
    if r < 1 / 2 then f
    else if 1 / 2 < r then f + 1
    else if f % 2 = 0 then f else f + 1
  (n : ℚ) / 100

/-- Lines 369-372: `groupby('tag').agg(count, sum, mean, min, max).round(2)`
on `numeric_value`; `groupby` sorts the group keys. -/
def summaryByTag (vs : List ExtractedValue) : List SummaryRow :=
  let tags := ((vs.map (fun ev => ev.tag)).eraseDup).mergeSort (fun a b => a ≤ b)
  tags.map (fun t =>
    let g := (vs.filter (fun ev => ev.tag == t)).map (fun ev => ev.numeric_value)
    let s := g.foldl (fun a b => a + b) 0
    { tag := t,
      count := g.length,
      sum := round2 s,
      mean := round2 (s / (g.length : ℚ)),
      min := round2 (match g with | [] => 0 | h :: tl => tl.foldl Min.min h),
      max := round2 (match g with | [] => 0 | h :: tl => tl.foldl Max.max h) })

/-- `html.escape` (with default quoting). -/
def htmlEscapeChar (c : Char) : String :=
  if c = '&' then "&amp;"
  else if c = '<' then "&lt;"
  else if c = '>' then "&gt;"
  else if c = '"' then "&quot;"
  else if c = '\'' then "&#x27;"
  else String.mk [c]

/-- One line of the markdown-to-HTML fallback of `_generate_html`
(lines 498-510). -/
def mdLineToHtml (line : String) : String :=
  if line.startsWith "### " then "<h3>" ++ line.drop 4 ++ "</h3>"
  else if line.startsWith "## " then "<h2>" ++ line.drop 3 ++ "</h2>"
  else if line.startsWith "# " then "<h1>" ++ line.drop 2 ++ "</h1>"
  else if line.trim = "" then "<br>"
  else "<p>" ++ line ++ "</p>"

/-- The variable part of the fallback HTML of `_generate_html`: escaped
markdown converted line by line.  The fixed boilerplate around the body
(document skeleton and style block, lines 514-545) is constant text and is
not modelled. -/
def fallbackHtmlBody (md : String) : String :=
  String.intercalate "\n"
    (((String.join (md.data.map htmlEscapeChar)).splitOn "\n").map mdLineToHtml)

/-- `PDFProcessor._generate_html` (lines 481-545): native `export_to_html`
when present and not raising (a raise is swallowed), else the markdown
fallback — whose `export_to_markdown` call can itself raise and propagate. -/
def generateHtml (doc : Doc) : Except String String :=
  match doc.export_to_html with
  | some (.ok h) => .ok h
  | _ => doc.export_to_markdown.map fallbackHtmlBody

/-- A progress emission: the code only calls the callback when one was
supplied (`if progress_callback:`). -/
def emit (cb : Bool) (evs : List (String × Nat)) (m : String) (p : Nat) :
    List (String × Nat) :=
  if cb then evs ++ [(m, p)] else evs

/-- Lines 270-276: JSON export; `export_to_dict` may raise (unguarded). -/
def jsonStage (doc : Doc) (opts : ExportOptions) (base : String) :
    Except String (List (String × FileContent)) :=
  if opts.json then
    doc.export_to_dict.map (fun d => [(base ++ ".json", FileContent.jsonDoc d)])
  else .ok []

/-- Lines 281-294: markdown then HTML export; both unguarded. -/
def textHtmlStage (doc : Doc) (opts : ExportOptions) (base : String) :
    Except String (List (String × FileContent)) := do
  let mdFiles ←
    (if opts.markdown then
      doc.export_to_markdown.map
        (fun md => [(base ++ ".md", FileContent.mdFile md)])
    else .ok [])
  let htmlFiles ←
    (if opts.html then
      (generateHtml doc).map
        (fun h => [(base ++ ".html", FileContent.htmlFile h)])
    else .ok [])
  pure (mdFiles ++ htmlFiles)

/-- Lines 300-312: collect the tables; a table whose grid conversion raises
is skipped (guarded per table); sheet names use the original enumeration
index. -/
def collectTables (tables : List (Except String Unit)) : List String :=
  tables.enum.filterMap (fun pr =>
    match pr.2 with
    | .ok _ => some ("Table_" ++ toString (pr.1 + 1))
    | .error _ => none)

/-- Lines 300-327: table collection plus Excel/CSV export.  Returns
`table_count` and the artifact list. -/
def tablesStage (doc : Doc) (opts : ExportOptions) (base : String) :
    Nat × List (String × FileContent) :=
  let sheets := collectTables doc.tables
  let xlsx :=
    if opts.excel && !sheets.isEmpty then
      [(base ++ "_tables.xlsx", FileContent.tablesXlsx sheets)]
    else []
  let csvs :=
    if opts.csv && !sheets.isEmpty then
      sheets.map (fun sn =>
        (base ++ "_" ++ sn.toLower ++ ".csv", FileContent.tableCsv sn))
    else []
  (sheets.length, xlsx ++ csvs)

/-- Lines 342-374: the three extracted-values artifacts. -/
def valuesArtifacts (base : String) (vs : List ExtractedValue) :
    List (String × FileContent) :=
  [(base ++ "_extracted_values.json", FileContent.valuesJson vs),
   (base ++ "_extracted_values.csv", FileContent.valuesCsv vs),
   (base ++ "_extracted_values.xlsx", FileContent.valuesXlsx vs (summaryByTag vs))]

/-- Lines 334-374: the fallback body: render the text (`export_to_markdown`,
unguarded), extract, and export only when values were found.  Returns
`extracted_values_count` and the artifacts. -/
def fallbackStage (doc : Doc) (base : String) :
    Except String (Nat × List (String × FileContent)) :=
  doc.export_to_markdown.map (fun text =>
    let vs := extractNumericValues text
    if vs.isEmpty then (0, []) else (vs.length, valuesArtifacts base vs))

/-- Lines 380-402: picture export, guarded per picture; an image that raises
or is absent is skipped. -/
def picturesStage (doc : Doc) (opts : ExportOptions) (base : String) :
    Nat × List (String × FileContent) :=
  if opts.images then
    let saved := doc.pictures.enum.filterMap (fun pr =>
      match pr.2 with
      | .ok (some _) =>
        some (base ++ "_images/figure_" ++ toString (pr.1 + 1) ++ ".png")
      | _ => none)
    (saved.length, saved.map (fun n => (n, FileContent.figurePng)))
  else (0, [])

/-- Lines 407-426: key-value export, guarded per item; written only when
the collected entries are non-empty. -/
def kvStage (doc : Doc) (base : String) : List (String × FileContent) :=
  if doc.key_value_items.isEmpty then []
  else
    let entries := doc.key_value_items.filterMap (fun it =>
      match it with
      | .ok (some e) => some e
      | _ => none)
    if entries.isEmpty then []
    else [(base ++ "_key_values.json", FileContent.kvJson entries)]

/-- Lines 428-447: form export, same shape as the key-value export. -/
def formStage (doc : Doc) (base : String) : List (String × FileContent) :=
  if doc.form_items.isEmpty then []
  else
    let entries := doc.form_items.filterMap (fun it =>
      match it with
      | .ok (some e) => some e
      | _ => none)
    if entries.isEmpty then []
    else [(base ++ "_form_data.json", FileContent.formJson entries)]

/-- The `except` branch of lines 474-479. -/
def failRes (fileName err : String) : ProcessingResult :=
  { success := false,
    message := "Error processing " ++ fileName ++ ": " ++ err,
    output_files := [] }

/-- The message composition of lines 457-462. -/
def successMsg (fileName : String) (tc vc : Nat) : String :=
  let msg0 := "Successfully processed " ++ fileName
  if tc = 0 ∧ 0 < vc then
    msg0 ++ " (no tables found, extracted " ++ toString vc ++ " numeric values)"
  else if tc = 0 then
    msg0 ++ " (no tables or numeric values found)"
  else msg0

/-- `PDFProcessor.process`.  `conv` is the outcome of
`self.converter.convert(str(file_path))`; `fileName` is `file_path.name`,
`base` is `file_path.stem` (both computed by the standard path library);
`cb` says whether a progress callback was supplied.  Returns the result
and the list of progress emissions in order. -/
def process (conv : Except String Doc) (opts : ExportOptions)
    (fileName base : String) (cb : Bool) :
    ProcessingResult × List (String × Nat) :=
  let ev0 := emit cb [] "Converting document..." 10
  match conv with
  | .error e => (failRes fileName e, ev0)
  | .ok doc =>
    let ev1 := emit cb ev0 "Document converted, exporting..." 50
    match jsonStage doc opts base with
    | .error e => (failRes fileName e, ev1)
    | .ok files1 =>
      let ev2 := emit cb ev1 "Exporting text formats..." 60
      match textHtmlStage doc opts base with
      | .error e => (failRes fileName e, ev2)
      | .ok files2 =>
        let ev3 := emit cb ev2 "Extracting tables..." 65
        let tres := tablesStage doc opts base
        let fb := tres.1 == 0 && opts.extract_values
        let ev4 :=
          if fb then emit cb ev3 "No tables found, extracting numeric values..." 70
          else ev3
        match (if fb then fallbackStage doc base else .ok (0, [])) with
        | .error e => (failRes fileName e, ev4)
        | .ok vres =>
          let ev5 := emit cb ev4 "Extracting pictures..." 80
          let pres := picturesStage doc opts base
          let ev6 := emit cb ev5 "Exporting key-value data..." 90
          let kvs := kvStage doc base
          let fms := formStage doc base
          let ev7 := emit cb ev6 "Complete!" 100
          let allFiles := files1 ++ files2 ++ tres.2 ++ vres.2 ++ pres.2 ++ kvs ++ fms
          ({ success := true,
             message := successMsg fileName tres.1 vres.1,
             output_files := allFiles.map Prod.fst,
             table_count := tres.1,
             page_count := doc.pages.getD 0,
             picture_count := pres.1,
             extracted_values_count := vres.1 }, ev7)

/-! ### Derived notions used by the theorems -/

/-- The dedup key of a produced record: `(start_offset, matched_text)`. -/
def keyOf (r : TaggedRecord) : Nat × String := (r.start, r.ev.value)

/-- The dedup key of a raw match. -/
def mKey (pr : Nat × List Char) : Nat × String := (pr.1, String.mk pr.2)

/-- All dedup keys produced by all catalog patterns over a text (with
multiplicity, before deduplication). -/
def matchKeys (text : List Char) : List (Nat × String) :=
  (catalog.enum.map (fun e => (allMatches (patMatch e.2.1) text).map mKey)).flatten

/-- Production order on records: catalog priority first, then start offset
within one pattern. -/
def ordRel (a b : TaggedRecord) : Prop :=
  a.patIdx < b.patIdx ∨ (a.patIdx = b.patIdx ∧ a.start < b.start)

/-- The tag computed by the context tagger from the default tag and the
match's own lowered context window (lines 188-198, the `final_tag` part). -/
def tagRule (dtag : String) (ctxLower : List Char) : String :=
  match keywordHit ctxLower with
  | none => dtag
  | some cat => if dtag ∈ genericTags then cat else dtag

/-- Does a record's own context window contain any trigger keyword? -/
def hitB (r : TaggedRecord) : Bool :=
  (keywordHit (toLowerList r.ev.context.data)).isSome

/-- The milestone percents of the progress channel. -/
def milestones : List Nat := [10, 50, 60, 65, 70, 80, 90, 100]

/-! ### Concrete instances used by witnesses and counterexamples -/

/-- A document whose conversion succeeded but whose markdown rendering
raises. -/
def docMdFails : Doc :=
  { export_to_dict := .ok "d",
    export_to_markdown := .error "boom",
    export_to_html := none,
    tables := [],
    pictures := [],
    key_value_items := [],
    form_items := [],
    pages := none }

/-- A document whose conversion succeeded but whose dict export raises. -/
def docDictFails : Doc :=
  { export_to_dict := .error "dict boom",
    export_to_markdown := .ok "",
    export_to_html := none,
    tables := [],
    pictures := [],
    key_value_items := [],
    form_items := [],
    pages := none }

/-- A document with no tables whose text is the fallback-scenario body of
the specification; some guarded items fail. -/
def docFallback : Doc :=
  { export_to_dict := .ok "d",
    export_to_markdown := .ok "Total due: $42.00 by 2024-03-01",
    export_to_html := none,
    tables := [],
    pictures := [.ok (some ()), .error "img busted", .ok none],
    key_value_items := [.error "kv busted"],
    form_items := [],
    pages := some 2 }

/-- A document where conversion and the unguarded renderings succeed but
every table, picture, key-value and form item fails. -/
def docAllItemsFail : Doc :=
  { export_to_dict := .ok "d",
    export_to_markdown := .ok "",
    export_to_html := some (.error "html busted"),
    tables := [.error "t1", .error "t2"],
    pictures := [.error "p1"],
    key_value_items := [.error "k1"],
    form_items := [.error "f1"],
    pages := some 1 }

/-- A document with one surviving table out of three. -/
def docTables : Doc :=
  { export_to_dict := .ok "d",
    export_to_markdown := .ok "no numbers here",
    export_to_html := some (.ok "<p>n</p>"),
    tables := [.ok (), .error "bad grid", .ok ()],
    pictures := [],
    key_value_items := [],
    form_items := [],
    pages := some 3 }

/-- The text exhibiting the confidence leak: the first match of the
`quantity` pattern sits next to the keyword `qty`, the second match is
padded away from every trigger keyword. -/
def leakText : String :=
  "qty 1,500 xxxxxxxxxxxxxxxxxxxxxxxxxxxxxxxxxxxxxxxxxxxxxxxxxxxxxxxxxxxx 2,000"

/-! ## General lemmas about the extractor -/

theorem mkRecord_value (t : List Char) (dtag conf : String) (st : Nat)
    (m : List Char) : (mkRecord t dtag conf st m).1.value = String.mk m := rfl

theorem processMatches_cons_seen {t : List Char} {pi : Nat} {dtag : String}
    {st : Nat} {m : List Char} {rest : List (Nat × List Char)} {conf : String}
    {seen : List (Nat × String)} (h : (st, String.mk m) ∈ seen) :
    processMatches t pi dtag ((st, m) :: rest) conf seen =
      processMatches t pi dtag rest conf seen := by
  simp [processMatches, h]

theorem processMatches_cons_new {t : List Char} {pi : Nat} {dtag : String}
    {st : Nat} {m : List Char} {rest : List (Nat × List Char)} {conf : String}
    {seen : List (Nat × String)} (h : (st, String.mk m) ∉ seen) :
    processMatches t pi dtag ((st, m) :: rest) conf seen =
      (⟨pi, st, (mkRecord t dtag conf st m).1⟩ ::
         (processMatches t pi dtag rest (mkRecord t dtag conf st m).2
           ((st, String.mk m) :: seen)).1,
       (processMatches t pi dtag rest (mkRecord t dtag conf st m).2
         ((st, String.mk m) :: seen)).2) := by
  simp [processMatches, h]

/-- The `seen_values` set after one pattern holds exactly the incoming keys
and the keys of this pattern's matches. -/
theorem processMatches_seen_mem (t : List Char) (pi : Nat) (dtag : String) :
    ∀ (ms : List (Nat × List Char)) (conf : String) (seen : List (Nat × String))
      (k : Nat × String),
      (k ∈ (processMatches t pi dtag ms conf seen).2.2 ↔
        k ∈ seen ∨ k ∈ ms.map mKey) := by
  intro ms
  induction ms with
  | nil => intro conf seen k; simp [processMatches]
  | cons hd tl ih =>
    intro conf seen k
    obtain ⟨st, m⟩ := hd
    by_cases h : (st, String.mk m) ∈ seen
    · rw [processMatches_cons_seen h, ih]
      simp only [List.map_cons, List.mem_cons, mKey]
      constructor
      · rintro (hk | hk)
        · exact Or.inl hk
        · exact Or.inr (Or.inr hk)
      · rintro (hk | hk | hk)
        · exact Or.inl hk
        · exact Or.inl (hk ▸ h)
        · exact Or.inr hk
    · rw [processMatches_cons_new h]
      simp only [ih, List.mem_cons, List.map_cons, mKey]
      tauto

/-- The keys of the records produced for one pattern are exactly the keys of
its matches that were not already seen: deduplication suppresses exact
`(start, text)` duplicates and nothing else. -/
theorem processMatches_keys (t : List Char) (pi : Nat) (dtag : String) :
    ∀ (ms : List (Nat × List Char)) (conf : String) (seen : List (Nat × String))
      (k : Nat × String),
      (k ∈ (processMatches t pi dtag ms conf seen).1.map keyOf ↔
        k ∈ ms.map mKey ∧ k ∉ seen) := by
  intro ms
  induction ms with
  | nil => intro conf seen k; simp [processMatches]
  | cons hd tl ih =>
    intro conf seen k
    obtain ⟨st, m⟩ := hd
    by_cases h : (st, String.mk m) ∈ seen
    · rw [processMatches_cons_seen h, ih]
      simp only [List.map_cons, List.mem_cons, mKey]
      constructor
      · rintro ⟨hk, hns⟩
        exact ⟨Or.inr hk, hns⟩
      · rintro ⟨hk | hk, hns⟩
        · exact absurd (hk ▸ h) hns
        · exact ⟨hk, hns⟩
    · rw [processMatches_cons_new h]
      have hko : keyOf ⟨pi, st, (mkRecord t dtag conf st m).1⟩ =
          (st, String.mk m) := rfl
      have hmk : mKey (st, m) = (st, String.mk m) := rfl
      simp only [List.map_cons, List.mem_cons, ih, hko, hmk]
      constructor
      · rintro (hk | ⟨hm, hns⟩)
        · exact ⟨Or.inl hk, fun hs => h (hk ▸ hs)⟩
        · exact ⟨Or.inr hm, fun hs => hns (Or.inr hs)⟩
      · rintro ⟨hm | hm, hns⟩
        · exact Or.inl hm
        · by_cases hk : k = (st, String.mk m)
          · exact Or.inl hk
          · exact Or.inr ⟨hm, fun hs => hs.elim hk hns⟩

/-- The records produced for one pattern have pairwise distinct keys. -/
theorem processMatches_pairwise (t : List Char) (pi : Nat) (dtag : String) :
    ∀ (ms : List (Nat × List Char)) (conf : String) (seen : List (Nat × String)),
      (processMatches t pi dtag ms conf seen).1.Pairwise
        (fun a b => keyOf a ≠ keyOf b) := by
  intro ms
  induction ms with
  | nil => intro conf seen; simp [processMatches]
  | cons hd tl ih =>
    intro conf seen
    obtain ⟨st, m⟩ := hd
    by_cases h : (st, String.mk m) ∈ seen
    · rw [processMatches_cons_seen h]; exact ih conf seen
    · rw [processMatches_cons_new h]
      refine List.Pairwise.cons (fun b hb => ?_) (ih _ _)
      have hkb := (processMatches_keys t pi dtag tl
        (mkRecord t dtag conf st m).2 ((st, String.mk m) :: seen) (keyOf b)).mp
        (List.mem_map_of_mem keyOf hb)
      intro hab
      exact hkb.2 (by
        simp only [keyOf, mkRecord_value] at hab
        exact List.mem_cons.mpr (Or.inl hab.symm))

/-- Every produced record is `mkRecord` of one of the pattern's matches, at
the pattern's own index, for some threaded confidence value. -/
theorem processMatches_shape (t : List Char) (pi : Nat) (dtag : String) :
    ∀ (ms : List (Nat × List Char)) (conf : String) (seen : List (Nat × String))
      (r : TaggedRecord), r ∈ (processMatches t pi dtag ms conf seen).1 →
      ∃ st m conf0, (st, m) ∈ ms ∧ r = ⟨pi, st, (mkRecord t dtag conf0 st m).1⟩ := by
  intro ms
  induction ms with
  | nil => intro conf seen r hr; simp [processMatches] at hr
  | cons hd tl ih =>
    intro conf seen r hr
    obtain ⟨st, m⟩ := hd
    by_cases h : (st, String.mk m) ∈ seen
    · rw [processMatches_cons_seen h] at hr
      obtain ⟨st2, m2, conf0, hm, he⟩ := ih conf seen r hr
      exact ⟨st2, m2, conf0, List.mem_cons.mpr (Or.inr hm), he⟩
    · rw [processMatches_cons_new h] at hr
      rcases List.mem_cons.mp hr with h1 | h1
      · exact ⟨st, m, conf, List.mem_cons.mpr (Or.inl rfl), h1⟩
      · obtain ⟨st2, m2, conf0, hm, he⟩ := ih _ _ r h1
        exact ⟨st2, m2, conf0, List.mem_cons.mpr (Or.inr hm), he⟩

/-- The start offsets of the produced records form a sublist of the start
offsets of the matches (deduplication only removes elements). -/
theorem processMatches_starts_sublist (t : List Char) (pi : Nat) (dtag : String) :
    ∀ (ms : List (Nat × List Char)) (conf : String) (seen : List (Nat × String)),
      ((processMatches t pi dtag ms conf seen).1.map (fun r => r.start)).Sublist
        (ms.map Prod.fst) := by
  intro ms
  induction ms with
  | nil => intro conf seen; simp [processMatches]
  | cons hd tl ih =>
    intro conf seen
    obtain ⟨st, m⟩ := hd
    by_cases h : (st, String.mk m) ∈ seen
    · rw [processMatches_cons_seen h]
      exact (ih conf seen).trans (List.sublist_cons_self _ _)
    · rw [processMatches_cons_new h]
      simp only [List.map_cons]
      exact List.Sublist.cons₂ _ (ih _ _)

/-- Every start offset yielded by the scan is at least the scan position. -/
theorem scanAux_start_ge (m : Matcher) :
    ∀ (fuel : Nat) (rem : List Char) (pos : Nat) (prev : Option Char)
      (x : Nat × List Char), x ∈ scanAux m fuel rem pos prev → pos ≤ x.1 := by
  intro fuel
  induction fuel with
  | zero => intro rem pos prev x hx; simp [scanAux] at hx
  | succ f ih =>
    intro rem pos prev x hx
    match rem with
    | [] => simp [scanAux] at hx
    | c :: rest =>
      rw [scanAux] at hx
      match hm : m (c :: rest) prev with
      | none =>
        rw [hm] at hx
        exact Nat.le_of_succ_le (ih rest (pos + 1) (some c) x hx)
      | some [] =>
        rw [hm] at hx
        rcases List.mem_cons.mp hx with h1 | h1
        · simp [h1]
        · exact Nat.le_of_succ_le (ih rest (pos + 1) (some c) x h1)
      | some (a :: as) =>
        rw [hm] at hx
        rcases List.mem_cons.mp hx with h1 | h1
        · simp [h1]
        · have := ih (rest.drop as.length) (pos + (as.length + 1))
            ((a :: as).getLast?) x h1
          omega

/-- The scan yields matches in strictly increasing start order. -/
theorem scanAux_starts_sorted (m : Matcher) :
    ∀ (fuel : Nat) (rem : List Char) (pos : Nat) (prev : Option Char),
      ((scanAux m fuel rem pos prev).map Prod.fst).Pairwise (· < ·) := by
  intro fuel
  induction fuel with
  | zero => intro rem pos prev; simp [scanAux]
  | succ f ih =>
    intro rem pos prev
    match rem with
    | [] => simp [scanAux]
    | c :: rest =>
      rw [scanAux]
      match hm : m (c :: rest) prev with
      | none => exact ih rest (pos + 1) (some c)
      | some [] =>
        simp only [List.map_cons]
        refine List.Pairwise.cons (fun b hb => ?_) (ih rest (pos + 1) (some c))
        obtain ⟨x, hx, hxb⟩ := List.mem_map.mp hb
        have := scanAux_start_ge m f rest (pos + 1) (some c) x hx
        omega
      | some (a :: as) =>
        simp only [List.map_cons]
        refine List.Pairwise.cons (fun b hb => ?_)
          (ih (rest.drop as.length) (pos + (as.length + 1)) ((a :: as).getLast?))
        obtain ⟨x, hx, hxb⟩ := List.mem_map.mp hb
        have := scanAux_start_ge m f (rest.drop as.length) (pos + (as.length + 1))
          ((a :: as).getLast?) x hx
        omega

theorem allMatches_starts_sorted (m : Matcher) (text : List Char) :
    ((allMatches m text).map Prod.fst).Pairwise (· < ·) :=
  scanAux_starts_sorted m text.length text 0 none

/-- No record produced by the catalog run carries a key that was already in
the incoming `seen_values` set. -/
theorem runCatalog_key_not_seen (t : List Char) :
    ∀ (entries : List (Nat × PatKind × String × String))
      (seen : List (Nat × String)) (r : TaggedRecord),
      r ∈ runCatalog t entries seen → keyOf r ∉ seen := by
  intro entries
  induction entries with
  | nil => intro seen r hr; simp [runCatalog] at hr
  | cons e rest ih =>
    intro seen r hr
    obtain ⟨pi, pk, dtag, conf⟩ := e
    rw [runCatalog] at hr
    rcases List.mem_append.mp hr with h1 | h1
    · exact ((processMatches_keys t pi dtag _ conf seen (keyOf r)).mp
        (List.mem_map_of_mem keyOf h1)).2
    · intro hs
      exact ih _ r h1 ((processMatches_seen_mem t pi dtag _ conf seen
        (keyOf r)).mpr (Or.inl hs))

/-- Every key of a produced record comes from one of the catalog entries'
match streams. -/
theorem runCatalog_keys_sub (t : List Char) :
    ∀ (entries : List (Nat × PatKind × String × String))
      (seen : List (Nat × String)) (r : TaggedRecord),
      r ∈ runCatalog t entries seen →
      ∃ e ∈ entries, keyOf r ∈ (allMatches (patMatch e.2.1) t).map mKey := by
  intro entries
  induction entries with
  | nil => intro seen r hr; simp [runCatalog] at hr
  | cons e rest ih =>
    intro seen r hr
    obtain ⟨pi, pk, dtag, conf⟩ := e
    rw [runCatalog] at hr
    rcases List.mem_append.mp hr with h1 | h1
    · exact ⟨(pi, pk, dtag, conf), List.mem_cons.mpr (Or.inl rfl),
        ((processMatches_keys t pi dtag _ conf seen (keyOf r)).mp
          (List.mem_map_of_mem keyOf h1)).1⟩
    · obtain ⟨e2, he2, hk⟩ := ih _ r h1
      exact ⟨e2, List.mem_cons.mpr (Or.inr he2), hk⟩

/-- Conversely, every fresh key of some entry's match stream is realized by
a produced record: only exact duplicates are suppressed. -/
theorem runCatalog_exists_key (t : List Char) :
    ∀ (entries : List (Nat × PatKind × String × String))
      (seen : List (Nat × String)) (k : Nat × String),
      (∃ e ∈ entries, k ∈ (allMatches (patMatch e.2.1) t).map mKey) →
      k ∉ seen → ∃ r ∈ runCatalog t entries seen, keyOf r = k := by
  intro entries
  induction entries with
  | nil => rintro seen k ⟨e, he, _⟩ _; simp at he
  | cons e rest ih =>
    rintro seen k ⟨e2, he2, hk⟩ hns
    obtain ⟨pi, pk, dtag, conf⟩ := e
    rw [runCatalog]
    by_cases hfirst : k ∈ (allMatches (patMatch pk) t).map mKey
    · obtain ⟨y, hy, hyk⟩ := List.mem_map.mp
        ((processMatches_keys t pi dtag (allMatches (patMatch pk) t) conf seen
          k).mpr ⟨hfirst, hns⟩)
      exact ⟨y, List.mem_append.mpr (Or.inl hy), hyk⟩
    · rcases List.mem_cons.mp he2 with h1 | h1
      · rw [h1] at hk; exact absurd hk hfirst
      · have hns2 : k ∉ (processMatches t pi dtag (allMatches (patMatch pk) t)
            conf seen).2.2 := by
          intro hmem
          rcases (processMatches_seen_mem t pi dtag _ conf seen k).mp hmem with
            h2 | h2
          · exact hns h2
          · exact hfirst h2
        obtain ⟨r, hr, hrk⟩ := ih _ k ⟨e2, h1, hk⟩ hns2
        exact ⟨r, List.mem_append.mpr (Or.inr hr), hrk⟩

/-- All records of the catalog run have pairwise distinct keys. -/
theorem runCatalog_pairwise (t : List Char) :
    ∀ (entries : List (Nat × PatKind × String × String))
      (seen : List (Nat × String)),
      (runCatalog t entries seen).Pairwise (fun a b => keyOf a ≠ keyOf b) := by
  intro entries
  induction entries with
  | nil => intro seen; simp [runCatalog]
  | cons e rest ih =>
    intro seen
    obtain ⟨pi, pk, dtag, conf⟩ := e
    rw [runCatalog]
    rw [List.pairwise_append]
    refine ⟨processMatches_pairwise t pi dtag _ conf seen, ih _, ?_⟩
    intro a ha b hb hab
    have hka : keyOf a ∈ (processMatches t pi dtag (allMatches (patMatch pk) t)
        conf seen).2.2 := by
      refine (processMatches_seen_mem t pi dtag _ conf seen (keyOf a)).mpr
        (Or.inr ?_)
      exact ((processMatches_keys t pi dtag _ conf seen (keyOf a)).mp
        (List.mem_map_of_mem keyOf ha)).1
    exact runCatalog_key_not_seen t rest _ b hb (hab ▸ hka)

/-- Every record's pattern index is the index of one of the entries. -/
theorem runCatalog_patIdx (t : List Char) :
    ∀ (entries : List (Nat × PatKind × String × String))
      (seen : List (Nat × String)) (r : TaggedRecord),
      r ∈ runCatalog t entries seen → ∃ e ∈ entries, r.patIdx = e.1 := by
  intro entries
  induction entries with
  | nil => intro seen r hr; simp [runCatalog] at hr
  | cons e rest ih =>
    intro seen r hr
    obtain ⟨pi, pk, dtag, conf⟩ := e
    rw [runCatalog] at hr
    rcases List.mem_append.mp hr with h1 | h1
    · obtain ⟨st, m, conf0, _, he⟩ := processMatches_shape t pi dtag _ conf seen
        r h1
      exact ⟨(pi, pk, dtag, conf), List.mem_cons.mpr (Or.inl rfl), by
        rw [he]⟩
    · obtain ⟨e2, he2, hk⟩ := ih _ r h1
      exact ⟨e2, List.mem_cons.mpr (Or.inr he2), hk⟩

/-- The catalog run produces records in production order: catalog priority
first, then start offset. -/
theorem runCatalog_ordered (t : List Char) :
    ∀ (entries : List (Nat × PatKind × String × String))
      (seen : List (Nat × String)),
      (entries.map Prod.fst).Pairwise (· < ·) →
      (runCatalog t entries seen).Pairwise ordRel := by
  intro entries
  induction entries with
  | nil => intro seen _; simp [runCatalog]
  | cons e rest ih =>
    intro seen hsort
    obtain ⟨pi, pk, dtag, conf⟩ := e
    rw [List.map_cons, List.pairwise_cons] at hsort
    rw [runCatalog, List.pairwise_append]
    refine ⟨?_, ih _ hsort.2, ?_⟩
    · have hsub := processMatches_starts_sublist t pi dtag
        (allMatches (patMatch pk) t) conf seen
      have hst : ((processMatches t pi dtag (allMatches (patMatch pk) t) conf
          seen).1.map (fun r => r.start)).Pairwise (· < ·) :=
        (allMatches_starts_sorted (patMatch pk) t).sublist hsub
      have hst2 := List.pairwise_map.mp hst
      refine hst2.imp_of_mem (fun {a b} ha hb hlt => Or.inr ⟨?_, hlt⟩)
      obtain ⟨_, _, _, _, hea⟩ := processMatches_shape t pi dtag _ conf seen a ha
      obtain ⟨_, _, _, _, heb⟩ := processMatches_shape t pi dtag _ conf seen b hb
      rw [hea, heb]
    · intro a ha b hb
      obtain ⟨_, _, _, _, hea⟩ := processMatches_shape t pi dtag _ conf seen a ha
      obtain ⟨e2, he2, hpb⟩ := runCatalog_patIdx t rest _ b hb
      refine Or.inl ?_
      have : a.patIdx = pi := by rw [hea]
      rw [this, hpb]
      exact hsort.1 e2.1 (List.mem_map_of_mem Prod.fst he2)

theorem mkRecord_snd (t : List Char) (dtag conf : String) (st : Nat)
    (m : List Char) :
    (mkRecord t dtag conf st m).2 =
      (applyContext dtag conf (toLowerList (contextOf t st m.length))).2 := rfl

theorem mkRecord_confidence (t : List Char) (dtag conf : String) (st : Nat)
    (m : List Char) :
    (mkRecord t dtag conf st m).1.confidence =
      (applyContext dtag conf (toLowerList (contextOf t st m.length))).2 := rfl

theorem mkRecord_context (t : List Char) (dtag conf : String) (st : Nat)
    (m : List Char) :
    (mkRecord t dtag conf st m).1.context =
      String.mk (contextOf t st m.length) := rfl

/-- The tag returned by `applyContext` does not depend on the threaded
confidence: it is `tagRule` of the match's own context. -/
theorem applyContext_fst (dtag conf : String) (ctx : List Char) :
    (applyContext dtag conf ctx).1 = tagRule dtag ctx := by
  unfold applyContext tagRule
  cases keywordHit ctx with
  | none => rfl
  | some cat => by_cases h : dtag ∈ genericTags <;> simp [h]

/-- When the default tag is structural or the threaded confidence is not
`"medium"`, `applyContext` returns the confidence unchanged. -/
theorem applyContext_snd_stable {dtag conf : String} (ctx : List Char)
    (h : dtag ∉ genericTags ∨ conf ≠ "medium") :
    (applyContext dtag conf ctx).2 = conf := by
  unfold applyContext
  cases keywordHit ctx with
  | none => rfl
  | some cat =>
    rcases h with h | h
    · simp [h]
    · by_cases hg : dtag ∈ genericTags <;> simp [hg, h]

/-- For a generic default tag with threaded confidence `"medium"`, the
returned confidence is `"high"` exactly on a keyword hit. -/
theorem applyContext_snd_medium {dtag : String} (ctx : List Char)
    (hd : dtag ∈ genericTags) :
    (applyContext dtag "medium" ctx).2 =
      (if (keywordHit ctx).isSome then "high" else "medium") := by
  unfold applyContext
  cases keywordHit ctx with
  | none => rfl
  | some cat => simp [hd]

/-- Every record of the catalog run is `mkRecord` of a match of its entry's
pattern, for some threaded confidence value. -/
theorem runCatalog_shape (t : List Char) :
    ∀ (entries : List (Nat × PatKind × String × String))
      (seen : List (Nat × String)) (r : TaggedRecord),
      r ∈ runCatalog t entries seen →
      ∃ e ∈ entries, ∃ st m conf0, (st, m) ∈ allMatches (patMatch e.2.1) t ∧
        r = ⟨e.1, st, (mkRecord t e.2.2.1 conf0 st m).1⟩ := by
  intro entries
  induction entries with
  | nil => intro seen r hr; simp [runCatalog] at hr
  | cons e rest ih =>
    intro seen r hr
    obtain ⟨pi, pk, dtag, conf⟩ := e
    rw [runCatalog] at hr
    rcases List.mem_append.mp hr with h1 | h1
    · obtain ⟨st, m, conf0, hm, he⟩ := processMatches_shape t pi dtag _ conf seen
        r h1
      exact ⟨(pi, pk, dtag, conf), List.mem_cons.mpr (Or.inl rfl), st, m, conf0,
        hm, he⟩
    · obtain ⟨e2, he2, hrest⟩ := ih _ r h1
      exact ⟨e2, List.mem_cons.mpr (Or.inr he2), hrest⟩

/-- A record's numeric value is always the sentinel-defaulted parse of its
own cleaned matched text: a parse failure yields `0` and never removes the
record. -/
theorem runCatalog_numeric (t : List Char)
    (entries : List (Nat × PatKind × String × String))
    (seen : List (Nat × String)) (r : TaggedRecord)
    (hr : r ∈ runCatalog t entries seen) :
    r.ev.numeric_value = ((parseFloatQ (cleanValue r.ev.value.data)).getD 0) := by
  obtain ⟨e, _, st, m, conf0, _, he⟩ := runCatalog_shape t entries seen r hr
  subst he
  rfl

/-- A record's tag is `tagRule` of its own default tag and its own stored
context window. -/
theorem runCatalog_tag (t : List Char)
    (entries : List (Nat × PatKind × String × String))
    (seen : List (Nat × String)) (r : TaggedRecord)
    (hr : r ∈ runCatalog t entries seen) :
    ∃ e ∈ entries, r.patIdx = e.1 ∧
      r.ev.tag = tagRule e.2.2.1 (toLowerList r.ev.context.data) := by
  obtain ⟨e, he, st, m, conf0, _, hre⟩ := runCatalog_shape t entries seen r hr
  subst hre
  refine ⟨e, he, rfl, ?_⟩
  show (applyContext e.2.2.1 conf0 (toLowerList (contextOf t st m.length))).1 =
    tagRule e.2.2.1 (toLowerList ((String.mk (contextOf t st m.length)).data))
  rw [applyContext_fst]

/-- Confidence is constant over a pattern's matches when the default tag is
structural or the base confidence is not `"medium"`. -/
theorem processMatches_conf_stable (t : List Char) (pi : Nat) (dtag : String) :
    ∀ (ms : List (Nat × List Char)) (conf : String) (seen : List (Nat × String)),
      (dtag ∉ genericTags ∨ conf ≠ "medium") →
      ∀ r ∈ (processMatches t pi dtag ms conf seen).1,
        r.ev.confidence = conf := by
  intro ms
  induction ms with
  | nil => intro conf seen _ r hr; simp [processMatches] at hr
  | cons hd tl ih =>
    intro conf seen hc r hr
    obtain ⟨st, m⟩ := hd
    by_cases h : (st, String.mk m) ∈ seen
    · rw [processMatches_cons_seen h] at hr
      exact ih conf seen hc r hr
    · rw [processMatches_cons_new h] at hr
      have hth : (mkRecord t dtag conf st m).2 = conf :=
        applyContext_snd_stable _ hc
      rcases List.mem_cons.mp hr with h1 | h1
      · rw [h1]
        show (applyContext dtag conf (toLowerList (contextOf t st m.length))).2 =
          conf
        exact applyContext_snd_stable _ hc
      · have := ih (mkRecord t dtag conf st m).2 ((st, String.mk m) :: seen)
          (by rw [hth]; exact hc) r h1
        rw [hth] at this
        exact this

/-- Confidence threading for a generic pattern with base confidence
`"medium"`: a record carries `"high"` exactly when some record at the same
or an earlier position of the same pattern run has a keyword hit in its own
context window. -/
theorem processMatches_conf_medium (t : List Char) (pi : Nat) {dtag : String}
    (hd : dtag ∈ genericTags) :
    ∀ (ms : List (Nat × List Char)) (seen : List (Nat × String)) (j : Nat)
      (r : TaggedRecord),
      (processMatches t pi dtag ms "medium" seen).1[j]? = some r →
      r.ev.confidence =
        (if ((processMatches t pi dtag ms "medium" seen).1.take (j + 1)).any hitB
         then "high" else "medium") := by
  intro ms
  induction ms with
  | nil => intro seen j r hr; simp [processMatches] at hr
  | cons hdm tl ih =>
    intro seen j r hr
    obtain ⟨st, m⟩ := hdm
    by_cases h : (st, String.mk m) ∈ seen
    · rw [processMatches_cons_seen h] at hr ⊢
      exact ih seen j r hr
    · rw [processMatches_cons_new h] at hr ⊢
      have hhit : hitB ⟨pi, st, (mkRecord t dtag "medium" st m).1⟩ =
          (keywordHit (toLowerList (contextOf t st m.length))).isSome := rfl
      by_cases hk : (keywordHit (toLowerList (contextOf t st m.length))).isSome
      · -- first hit: this and all later records are high
        have hth : (mkRecord t dtag "medium" st m).2 = "high" := by
          rw [mkRecord_snd, applyContext_snd_medium _ hd, if_pos hk]
        rw [hth] at hr ⊢
        match j with
        | 0 =>
          simp only [List.getElem?_cons_zero, Option.some.injEq] at hr
          subst hr
          have h1 : ((⟨pi, st, (mkRecord t dtag "medium" st m).1⟩ ::
              (processMatches t pi dtag tl "high"
                ((st, String.mk m) :: seen)).1).take 1).any hitB = true := by
            rw [List.take_succ_cons, List.any_cons, hhit, hk]
            simp
          rw [h1, if_pos rfl]
          rw [mkRecord_confidence, applyContext_snd_medium _ hd, if_pos hk]
        | j + 1 =>
          simp only [List.getElem?_cons_succ] at hr
          have hrc := processMatches_conf_stable t pi dtag tl "high"
            ((st, String.mk m) :: seen) (Or.inr (by decide)) r
            (List.getElem?_mem hr)
          rw [hrc]
          have h1 : ((⟨pi, st, (mkRecord t dtag "medium" st m).1⟩ ::
              (processMatches t pi dtag tl "high"
                ((st, String.mk m) :: seen)).1).take (j + 2)).any hitB = true := by
            rw [List.take_succ_cons, List.any_cons, hhit, hk]
            simp
          rw [h1, if_pos rfl]
      · -- no hit on this match: confidence threads on as "medium"
        have hth : (mkRecord t dtag "medium" st m).2 = "medium" := by
          rw [mkRecord_snd, applyContext_snd_medium _ hd, if_neg hk]
        rw [hth] at hr ⊢
        match j with
        | 0 =>
          simp only [List.getElem?_cons_zero, Option.some.injEq] at hr
          subst hr
          have h1 : ((⟨pi, st, (mkRecord t dtag "medium" st m).1⟩ ::
              (processMatches t pi dtag tl "medium"
                ((st, String.mk m) :: seen)).1).take 1).any hitB = false := by
            rw [List.take_succ_cons, List.any_cons, hhit]
            simp [hk]
          rw [h1, if_neg (by simp)]
          rw [mkRecord_confidence, applyContext_snd_medium _ hd, if_neg hk]
        | j + 1 =>
          simp only [List.getElem?_cons_succ] at hr
          rw [ih _ j r hr]
          have h1 : ((⟨pi, st, (mkRecord t dtag "medium" st m).1⟩ ::
              (processMatches t pi dtag tl "medium"
                ((st, String.mk m) :: seen)).1).take (j + 2)).any hitB =
              ((processMatches t pi dtag tl "medium"
                ((st, String.mk m) :: seen)).1.take (j + 1)).any hitB := by
            rw [List.take_succ_cons, List.any_cons, hhit]
            simp [hk]
          rw [h1]

/-! ## Equation lemmas for the pipeline -/

theorem process_conv_err (e : String) (opts : ExportOptions) (fn base : String)
    (cb : Bool) :
    process (.error e) opts fn base cb =
      (failRes fn e, if cb then [("Converting document...", 10)] else []) := by
  cases cb <;> simp [process, emit]

theorem process_json_err {doc : Doc} {opts : ExportOptions} {base : String}
    {e : String} (fn : String) (cb : Bool)
    (h : jsonStage doc opts base = .error e) :
    process (.ok doc) opts fn base cb =
      (failRes fn e,
       if cb then
         [("Converting document...", 10), ("Document converted, exporting...", 50)]
       else []) := by
  cases cb <;> simp [process, emit, h]

theorem process_text_err {doc : Doc} {opts : ExportOptions} {base : String}
    {e : String} (fn : String) (cb : Bool) {fs1 : List (String × FileContent)}
    (h1 : jsonStage doc opts base = .ok fs1)
    (h2 : textHtmlStage doc opts base = .error e) :
    process (.ok doc) opts fn base cb =
      (failRes fn e,
       if cb then
         [("Converting document...", 10), ("Document converted, exporting...", 50),
          ("Exporting text formats...", 60)]
       else []) := by
  cases cb <;> simp [process, emit, h1, h2]

theorem process_fb_err {doc : Doc} {opts : ExportOptions} {base : String}
    {e : String} (fn : String) (cb : Bool) {fs1 fs2 : List (String × FileContent)}
    (h1 : jsonStage doc opts base = .ok fs1)
    (h2 : textHtmlStage doc opts base = .ok fs2)
    (hfb : ((tablesStage doc opts base).1 == 0 && opts.extract_values) = true)
    (h3 : fallbackStage doc base = .error e) :
    process (.ok doc) opts fn base cb =
      (failRes fn e,
       if cb then
         [("Converting document...", 10), ("Document converted, exporting...", 50),
          ("Exporting text formats...", 60), ("Extracting tables...", 65),
          ("No tables found, extracting numeric values...", 70)]
       else []) := by
  cases cb <;> simp [process, emit, h1, h2, hfb, h3]

/-- Closed form of a run in which conversion and the unguarded renderings
succeeded. -/
theorem process_ok_eq {doc : Doc} {opts : ExportOptions} {base : String}
    (fn : String) (cb : Bool) {fs1 fs2 : List (String × FileContent)}
    {vres : Nat × List (String × FileContent)}
    (h1 : jsonStage doc opts base = .ok fs1)
    (h2 : textHtmlStage doc opts base = .ok fs2)
    (h3 : (if ((tablesStage doc opts base).1 == 0 && opts.extract_values) then
        fallbackStage doc base else .ok (0, [])) = .ok vres) :
    process (.ok doc) opts fn base cb =
      ({ success := true,
         message := successMsg fn (tablesStage doc opts base).1 vres.1,
         output_files :=
           (fs1 ++ fs2 ++ (tablesStage doc opts base).2 ++ vres.2 ++
             (picturesStage doc opts base).2 ++ kvStage doc base ++
             formStage doc base).map Prod.fst,
         table_count := (tablesStage doc opts base).1,
         page_count := doc.pages.getD 0,
         picture_count := (picturesStage doc opts base).1,
         extracted_values_count := vres.1 },
       if cb then
         [("Converting document...", 10), ("Document converted, exporting...", 50),
          ("Exporting text formats...", 60), ("Extracting tables...", 65)] ++
         (if ((tablesStage doc opts base).1 == 0 && opts.extract_values) then
            [("No tables found, extracting numeric values...", 70)] else []) ++
         [("Extracting pictures...", 80), ("Exporting key-value data...", 90),
          ("Complete!", 100)]
       else []) := by
  by_cases hfb : ((tablesStage doc opts base).1 == 0 && opts.extract_values) = true
  · rw [if_pos hfb] at h3
    cases cb <;> simp [process, emit, h1, h2, hfb, h3]
  · rw [Bool.not_eq_true] at hfb
    rw [hfb] at h3
    simp only [Bool.false_eq_true, if_false, Except.ok.injEq] at h3
    subst h3
    cases cb <;> simp [process, emit, h1, h2, hfb]

theorem isNoise_iff (ev : ExtractedValue) :
    isNoise ev = true ↔
      (ev.tag = "integer" ∧ ev.confidence = "low" ∧ ev.numeric_value < 10) := by
  simp [isNoise, and_assoc]

/-! ## The claims -/

/-- The key set of the produced records is exactly the key set of the raw
match streams. -/
theorem extractedPre_keys (text : String) (k : Nat × String) :
    k ∈ (extractedPre text.data).map keyOf ↔ k ∈ matchKeys text.data := by
  constructor
  · intro hk
    obtain ⟨r, hr, hrk⟩ := List.mem_map.mp hk
    obtain ⟨e, he, hke⟩ := runCatalog_keys_sub text.data catalog.enum [] r hr
    exact List.mem_flatten.mpr
      ⟨(allMatches (patMatch e.2.1) text.data).map mKey,
       List.mem_map_of_mem _ he, hrk ▸ hke⟩
  · intro hk
    obtain ⟨l, hl, hkl⟩ := List.mem_flatten.mp hk
    obtain ⟨e, he, hle⟩ := List.mem_map.mp hl
    obtain ⟨r, hr, hrk⟩ := runCatalog_exists_key text.data catalog.enum [] k
      ⟨e, he, hle ▸ hkl⟩ (List.not_mem_nil k)
    exact List.mem_map.mpr ⟨r, hr, hrk⟩

/-- C3: for every input text, the records produced by the extractor have
pairwise-distinct `(start_offset, matched_text)` keys — both before and
after the noise filter —, the produced key set is exactly the key set of
the raw match streams (so a second match with the same key, from the same
or a later pattern, is suppressed, while every match with a fresh key
produces a record even when spans overlap), and the returned values are the
noise-filtered records. -/
theorem C3_dedup_invariant (text : String) :
    ((extractedPre text.data).Pairwise fun a b => keyOf a ≠ keyOf b) ∧
    (((extractedPre text.data).filter fun r => !(isNoise r.ev)).Pairwise
      fun a b => keyOf a ≠ keyOf b) ∧
    (∀ k, k ∈ (extractedPre text.data).map keyOf ↔ k ∈ matchKeys text.data) ∧
    extractNumericValues text =
      ((extractedPre text.data).filter fun r => !(isNoise r.ev)).map
        fun r => r.ev := by
  refine ⟨runCatalog_pairwise text.data catalog.enum [], ?_, extractedPre_keys text, rfl⟩
  exact (runCatalog_pairwise text.data catalog.enum []).sublist
    (List.filter_sublist _)

/-- C8: records are returned in production order — all surviving records of
an earlier catalog pattern precede those of a later pattern, and within one
pattern records appear in increasing match start order; the noise filter
preserves this order, and the returned values are the ordered filtered
records. -/
theorem C8_production_order (text : String) :
    ((extractedPre text.data).Pairwise ordRel) ∧
    (((extractedPre text.data).filter fun r => !(isNoise r.ev)).Pairwise ordRel) ∧
    extractNumericValues text =
      ((extractedPre text.data).filter fun r => !(isNoise r.ev)).map
        fun r => r.ev := by
  have hcat : (catalog.enum.map Prod.fst).Pairwise (· < ·) := by decide
  refine ⟨runCatalog_ordered text.data catalog.enum [] hcat, ?_, rfl⟩
  exact (runCatalog_ordered text.data catalog.enum [] hcat).sublist
    (List.filter_sublist _)

/-- C6: the extractor drops exactly the records whose tag is `integer`,
confidence is `low` and numeric value is below `10`: no returned record is
of that shape, every other produced record is returned, and in particular
`extract "see page 3 and 7"` contains no `integer`/`low` record with value
below `10`. -/
theorem C6_noise_filter :
    (∀ (text : String) (ev : ExtractedValue), ev ∈ extractNumericValues text →
      ¬(ev.tag = "integer" ∧ ev.confidence = "low" ∧ ev.numeric_value < 10)) ∧
    (∀ (text : String) (r : TaggedRecord), r ∈ extractedPre text.data →
      ¬(r.ev.tag = "integer" ∧ r.ev.confidence = "low" ∧
        r.ev.numeric_value < 10) →
      r.ev ∈ extractNumericValues text) ∧
    (∀ ev ∈ extractNumericValues "see page 3 and 7",
      ¬(ev.tag = "integer" ∧ ev.confidence = "low" ∧ ev.numeric_value < 10)) := by
  have key : ∀ (text : String) (ev : ExtractedValue),
      ev ∈ extractNumericValues text →
      ¬(ev.tag = "integer" ∧ ev.confidence = "low" ∧ ev.numeric_value < 10) := by
    intro text ev hev hno
    obtain ⟨r, hr, hre⟩ := List.mem_map.mp hev
    have hf := (List.mem_filter.mp hr).2
    rw [← hre] at hno
    rw [← isNoise_iff] at hno
    simp [hno] at hf
  refine ⟨key, ?_, fun ev hev => key _ ev hev⟩
  intro text r hr hno
  refine List.mem_map.mpr ⟨r, List.mem_filter.mpr ⟨hr, ?_⟩, rfl⟩
  rw [← isNoise_iff] at hno
  simp [hno]

/-- C7: the extractor is total by construction; a numeric parse failure
(including the empty cleaned string, on which the parser fails) never drops
a record: every produced record carries the sentinel-defaulted parse of its
own cleaned raw text as `numeric_value`, record production is determined by
the dedup keys alone (independently of parse success), and the record for
the unparsable `"$1.2.3.4"` is returned with sentinel `0`, keeping raw
text, tag, context and confidence. -/
theorem C7_parse_failure_sentinel :
    (∀ (text : String) (r : TaggedRecord), r ∈ extractedPre text.data →
      r.ev.numeric_value = ((parseFloatQ (cleanValue r.ev.value.data)).getD 0)) ∧
    parseFloatQ [] = none ∧
    (∀ (text : String) (k : Nat × String),
      k ∈ (extractedPre text.data).map keyOf ↔ k ∈ matchKeys text.data) ∧
    (⟨"$1.2.3.4", 0, "currency", "$1.2.3.4", "high"⟩ : ExtractedValue) ∈
      extractNumericValues "$1.2.3.4" ∧
    parseFloatQ (cleanValue "$1.2.3.4".data) = none := by
  refine ⟨?_, rfl, ?_, by decide, by decide⟩
  · intro text r hr
    exact runCatalog_numeric text.data catalog.enum [] r hr
  · intro text k
    exact extractedPre_keys text k

/-- C10: the noise filter tests the final tag after context tagging, not
the pattern's default tag: any produced record whose final tag is not
`integer` survives the filter, and concretely the bare-integer match `"3"`
of `"ref 3"` — reclassified to `id` by the context keyword `ref` while
keeping confidence `low` and numeric value `3 < 10` — is returned. -/
theorem C10_context_rescues_small_integers :
    (∀ (text : String) (r : TaggedRecord), r ∈ extractedPre text.data →
      r.ev.tag ≠ "integer" → r.ev ∈ extractNumericValues text) ∧
    (⟨9, 4, ⟨"3", 3, "id", "ref 3", "low"⟩⟩ : TaggedRecord) ∈
      extractedPre "ref 3".data ∧
    catalog[9]? = some (.integer, "integer", "low") ∧
    keywordHit (toLowerList "ref 3".data) = some "id" ∧
    (⟨"3", 3, "id", "ref 3", "low"⟩ : ExtractedValue) ∈
      extractNumericValues "ref 3" := by
  refine ⟨?_, by decide, by decide, by decide, by decide⟩
  intro text r hr htag
  refine List.mem_map.mpr ⟨r, List.mem_filter.mpr ⟨hr, ?_⟩, rfl⟩
  simp only [Bool.not_eq_true']
  rw [← Bool.not_eq_true, isNoise_iff]
  intro hc
  exact htag hc.1

theorem C6_noise_filter_witness :
    ¬((⟨"3", 3, "measurement", "see page 3 and 7", "low"⟩ :
        ExtractedValue).tag = "integer" ∧
      (⟨"3", 3, "measurement", "see page 3 and 7", "low"⟩ :
        ExtractedValue).confidence = "low" ∧
      (⟨"3", 3, "measurement", "see page 3 and 7", "low"⟩ :
        ExtractedValue).numeric_value < 10) ∧
    (⟨"3", 3, "measurement", "see page 3 and 7", "low"⟩ : ExtractedValue) ∈
      extractNumericValues "see page 3 and 7" :=
  ⟨C6_noise_filter.1 "see page 3 and 7" _ (by decide),
   C6_noise_filter.2.1 "see page 3 and 7"
     ⟨9, 9, ⟨"3", 3, "measurement", "see page 3 and 7", "low"⟩⟩
     (by decide) (by decide)⟩

theorem C7_parse_failure_sentinel_witness :
    (⟨0, 0, ⟨"$1.2.3.4", 0, "currency", "$1.2.3.4", "high"⟩⟩ :
        TaggedRecord).ev.numeric_value =
      ((parseFloatQ (cleanValue
        (⟨0, 0, ⟨"$1.2.3.4", 0, "currency", "$1.2.3.4", "high"⟩⟩ :
          TaggedRecord).ev.value.data)).getD 0) :=
  C7_parse_failure_sentinel.1 "$1.2.3.4" _ (by decide)

theorem C10_context_rescues_small_integers_witness :
    (⟨9, 4, ⟨"3", 3, "id", "ref 3", "low"⟩⟩ : TaggedRecord).ev ∈
      extractNumericValues "ref 3" :=
  C10_context_rescues_small_integers.1 "ref 3" _ (by decide) (by decide)

/-- C4: numeric normalization first strips every character other than
digits, dot, comma and minus (so stripping first is idempotent and no other
character reaches the separator step), resolves every comma (the cleaned
output contains only digits, dots and minuses: with both separators
present the one occurring last becomes the decimal point and the other is
dropped, otherwise commas are dropped as grouping, as witnessed on both
`1,234.56` and `1.234,56`), and concretely `"$1,234.56"` yields a
currency/high record with numeric value `1234.56`, `"1.234,56 EUR"` a
currency record with numeric value `1234.56`, and `"45%"` a
percentage record with numeric value `45`. -/
theorem C4_numeric_normalization :
    (∀ s : List Char, cleanValue (s.filter keepClean) = cleanValue s) ∧
    (∀ (s : List Char) (c : Char), c ∈ cleanValue s →
      (c.isDigit ∨ c = '.' ∨ c = '-') ∧ c ≠ ',') ∧
    parseFloatQ (cleanValue "1,234.56".data) = some (mkRat 123456 100) ∧
    parseFloatQ (cleanValue "1.234,56".data) = some (mkRat 123456 100) ∧
    (⟨"$1,234.56", (mkRat 123456 100), "currency", "$1,234.56", "high"⟩ :
      ExtractedValue) ∈ extractNumericValues "$1,234.56" ∧
    (⟨"1.234,56 EUR", (mkRat 123456 100), "currency", "1.234,56 EUR", "high"⟩ :
      ExtractedValue) ∈ extractNumericValues "1.234,56 EUR" ∧
    (⟨"45%", 45, "percentage", "45%", "high"⟩ : ExtractedValue) ∈
      extractNumericValues "45%" := by
  refine ⟨?_, ?_, by decide, by decide, by decide, by decide, by decide⟩
  · intro s
    unfold cleanValue
    rw [List.filter_filter]
    simp [Bool.and_self]
  · intro s c hc
    simp only [cleanValue] at hc
    split_ifs at hc with h1 h2
    · obtain ⟨d, hd, hdc⟩ := List.mem_map.mp hc
      have hdf := List.mem_filter.mp hd
      have hdk := (List.mem_filter.mp hdf.1).2
      have hdnd : ¬(d = '.') := by simpa using hdf.2
      by_cases hcomma : d = ','
      · subst hcomma
        simp only [if_pos rfl] at hdc
        subst hdc
        exact ⟨Or.inr (Or.inl rfl), by decide⟩
      · rw [if_neg hcomma] at hdc
        subst hdc
        simp only [keepClean, Bool.or_eq_true, decide_eq_true_eq] at hdk
        rcases hdk with ((hk | hk) | hk) | hk
        · exact ⟨Or.inl hk, hcomma⟩
        · exact absurd hk hdnd
        · exact absurd hk hcomma
        · exact ⟨Or.inr (Or.inr hk), hcomma⟩
    · have hdf := List.mem_filter.mp hc
      have hdk := (List.mem_filter.mp hdf.1).2
      have hdnc : ¬(c = ',') := by simpa using hdf.2
      simp only [keepClean, Bool.or_eq_true, decide_eq_true_eq] at hdk
      rcases hdk with ((hk | hk) | hk) | hk
      · exact ⟨Or.inl hk, hdnc⟩
      · exact ⟨Or.inr (Or.inl hk), hdnc⟩
      · exact absurd hk hdnc
      · exact ⟨Or.inr (Or.inr hk), hdnc⟩
    · have hdf := List.mem_filter.mp hc
      have hdk := (List.mem_filter.mp hdf.1).2
      have hdnc : ¬(c = ',') := by simpa using hdf.2
      simp only [keepClean, Bool.or_eq_true, decide_eq_true_eq] at hdk
      rcases hdk with ((hk | hk) | hk) | hk
      · exact ⟨Or.inl hk, hdnc⟩
      · exact ⟨Or.inr (Or.inl hk), hdnc⟩
      · exact absurd hk hdnc
      · exact ⟨Or.inr (Or.inr hk), hdnc⟩

theorem C4_numeric_normalization_witness :
    (('1' : Char).isDigit ∨ ('1' : Char) = '.' ∨ ('1' : Char) = '-') ∧
      ('1' : Char) ≠ ',' :=
  C4_numeric_normalization.2.1 "1,2".data '1' (by decide)

/-- C5 counterexample: on `leakText` the `quantity` pattern (catalog entry
7, base confidence `medium`) yields a second record, for the match `2,000`
at offset 71, whose own context window contains no trigger keyword at all —
yet the record is returned with confidence `high` (inherited from the
upgrade earned by the earlier `1,500` match of the same pattern).  Under
the claim, a match whose own context has no keyword hit would keep tag
`quantity` and its base confidence `medium`, so the claim is false. -/
theorem C5_counterexample :
    (⟨7, 71, ⟨"2,000", 2000, "quantity",
        "xxxxxxxxxxxxxxxxxxxxxxxxxxxxxxxxxxxxxxxxxxxxxxxxx 2,000", "high"⟩⟩ : TaggedRecord) ∈
      extractedPre leakText.data ∧
    (⟨"2,000", 2000, "quantity",
        "xxxxxxxxxxxxxxxxxxxxxxxxxxxxxxxxxxxxxxxxxxxxxxxxx 2,000", "high"⟩ : ExtractedValue) ∈
      extractNumericValues leakText ∧
    keywordHit (toLowerList
      ("xxxxxxxxxxxxxxxxxxxxxxxxxxxxxxxxxxxxxxxxxxxxxxxxx 2,000").data) = none ∧
    catalog[7]? = some (.quantity, "quantity", "medium") := by
  refine ⟨by decide, by decide, by decide, by decide⟩

/-- C5 amended: the record tag is still determined by the match's own
pattern default and its own context window alone (keyword categories
scanned in declared order, first hit wins, overwriting only the generic
defaults `integer`/`decimal`/`quantity`), and records of a structural
pattern — or of any pattern whose threaded confidence is not `medium` —
keep that confidence unchanged; but for a generic pattern with base
confidence `medium` the confidence is threaded through the pattern's match
loop: a record carries `high` exactly when its own or an earlier surviving
match of the same pattern run has a keyword hit, so the upgrade persists
for the rest of that pattern's matches. -/
theorem C5_amended :
    (∀ (text : String) (r : TaggedRecord), r ∈ extractedPre text.data →
      ∃ e ∈ catalog.enum, r.patIdx = e.1 ∧
        r.ev.tag = tagRule e.2.2.1 (toLowerList r.ev.context.data)) ∧
    (∀ (t : List Char) (pi : Nat) (dtag : String)
       (ms : List (Nat × List Char)) (conf : String)
       (seen : List (Nat × String)),
      (dtag ∉ genericTags ∨ conf ≠ "medium") →
      ∀ r ∈ (processMatches t pi dtag ms conf seen).1,
        r.ev.confidence = conf) ∧
    (∀ (t : List Char) (pi : Nat) (dtag : String)
       (ms : List (Nat × List Char)) (seen : List (Nat × String))
       (j : Nat) (r : TaggedRecord),
      dtag ∈ genericTags →
      (processMatches t pi dtag ms "medium" seen).1[j]? = some r →
      r.ev.confidence =
        (if ((processMatches t pi dtag ms "medium" seen).1.take (j + 1)).any hitB
         then "high" else "medium")) :=
  ⟨fun text r hr => runCatalog_tag text.data catalog.enum [] r hr,
   fun t pi dtag ms conf seen h r hr =>
     processMatches_conf_stable t pi dtag ms conf seen h r hr,
   fun t pi _ ms seen j r hd hr =>
     processMatches_conf_medium t pi hd ms seen j r hr⟩

theorem C5_amended_witness :
    (⟨7, 71, ⟨"2,000", 2000, "quantity",
        "xxxxxxxxxxxxxxxxxxxxxxxxxxxxxxxxxxxxxxxxxxxxxxxxx 2,000", "high"⟩⟩ : TaggedRecord).ev.confidence =
      (if ((processMatches leakText.data 7 "quantity"
          (allMatches (patMatch .quantity) leakText.data) "medium"
          []).1.take 2).any hitB
       then "high" else "medium") :=
  C5_amended.2.2 leakText.data 7 "quantity"
    (allMatches (patMatch .quantity) leakText.data) [] 1 _ (by decide) (by decide)

/-! ## Stage resolution lemmas -/

theorem jsonStage_ok_of {doc : Doc} {d : String} (opts : ExportOptions)
    (base : String) (h : doc.export_to_dict = .ok d) :
    jsonStage doc opts base =
      .ok (if opts.json then [(base ++ ".json", FileContent.jsonDoc d)] else []) := by
  by_cases hj : opts.json <;> simp [jsonStage, hj, h, Except.map]

theorem generateHtml_ok_of {doc : Doc} {md : String}
    (h : doc.export_to_markdown = .ok md) :
    ∃ s, generateHtml doc = .ok s := by
  unfold generateHtml
  match doc.export_to_html with
  | some (.ok s) => exact ⟨s, rfl⟩
  | some (.error _) => exact ⟨fallbackHtmlBody md, by simp [h, Except.map]⟩
  | none => exact ⟨fallbackHtmlBody md, by simp [h, Except.map]⟩

theorem textHtmlStage_ok_of {doc : Doc} {md : String} (opts : ExportOptions)
    (base : String) (h : doc.export_to_markdown = .ok md) :
    ∃ fs, textHtmlStage doc opts base = .ok fs := by
  obtain ⟨s, hs⟩ := generateHtml_ok_of h
  refine ⟨(if opts.markdown then [(base ++ ".md", FileContent.mdFile md)] else [])
    ++ (if opts.html then [(base ++ ".html", FileContent.htmlFile s)] else []),
    ?_⟩
  by_cases hm : opts.markdown <;> by_cases hh : opts.html <;>
    simp [textHtmlStage, hm, hh, h, hs, Except.map, Bind.bind, Except.bind,
      pure, Except.pure]

theorem textHtmlStage_err_of {doc : Doc} {e : String} (opts : ExportOptions)
    (base : String) (hm : opts.markdown = true)
    (he : doc.export_to_markdown = .error e) :
    textHtmlStage doc opts base = .error e := by
  simp [textHtmlStage, hm, he, Except.map, Bind.bind, Except.bind]

theorem jsonStage_err_of {doc : Doc} {e : String} (opts : ExportOptions)
    (base : String) (hj : opts.json = true)
    (he : doc.export_to_dict = .error e) :
    jsonStage doc opts base = .error e := by
  simp [jsonStage, hj, he, Except.map]

theorem generateHtml_native {doc : Doc} {h : String}
    (hh : doc.export_to_html = some (.ok h)) :
    generateHtml doc = .ok h := by
  unfold generateHtml
  rw [hh]

theorem generateHtml_err_of {doc : Doc} {e : String}
    (hh : doc.export_to_html = none ∨
      ∃ e2, doc.export_to_html = some (.error e2))
    (he : doc.export_to_markdown = .error e) :
    generateHtml doc = .error e := by
  unfold generateHtml
  rcases hh with hh | ⟨e2, hh⟩ <;> rw [hh] <;> simp [he, Except.map]

/-- The HTML-fallback route: with the markdown file disabled but the HTML
export enabled and no usable native HTML export, a raising
`export_to_markdown` propagates out of `_generate_html`. -/
theorem textHtmlStage_err_via_html {doc : Doc} {e : String}
    (opts : ExportOptions) (base : String) (hm : opts.markdown = false)
    (hht : opts.html = true)
    (hh : doc.export_to_html = none ∨
      ∃ e2, doc.export_to_html = some (.error e2))
    (he : doc.export_to_markdown = .error e) :
    textHtmlStage doc opts base = .error e := by
  simp [textHtmlStage, hm, hht, generateHtml_err_of hh he, Except.map,
    Bind.bind, Except.bind, pure, Except.pure]

/-- The text stage succeeds without consulting `export_to_markdown` when the
markdown file is disabled and the HTML file is disabled or served by the
native exporter. -/
theorem textHtmlStage_ok_alt {doc : Doc} (opts : ExportOptions)
    (base : String) (hm : opts.markdown = false)
    (hh : opts.html = false ∨ ∃ h, doc.export_to_html = some (.ok h)) :
    ∃ fs, textHtmlStage doc opts base = .ok fs := by
  rcases hh with hh | ⟨h, hh⟩
  · exact ⟨[], by simp [textHtmlStage, hm, hh, Bind.bind, Except.bind, pure,
      Except.pure]⟩
  · by_cases hht : opts.html = true
    · exact ⟨[(base ++ ".html", FileContent.htmlFile h)],
        by simp [textHtmlStage, hm, hht, generateHtml_native hh, Except.map,
          Bind.bind, Except.bind, pure, Except.pure]⟩
    · rw [Bool.not_eq_true] at hht
      exact ⟨[], by simp [textHtmlStage, hm, hht, Bind.bind, Except.bind,
        pure, Except.pure]⟩

theorem fallbackStage_err_of {doc : Doc} {e : String} (base : String)
    (he : doc.export_to_markdown = .error e) :
    fallbackStage doc base = .error e := by
  simp [fallbackStage, he, Except.map]

theorem fallbackStage_ok_of {doc : Doc} {md : String} (base : String)
    (h : doc.export_to_markdown = .ok md) :
    fallbackStage doc base =
      .ok (if (extractNumericValues md).isEmpty then (0, [])
        else ((extractNumericValues md).length,
          valuesArtifacts base (extractNumericValues md))) := by
  simp [fallbackStage, h, Except.map]


theorem fallbackIf_ok_of {doc : Doc} {md : String} (opts : ExportOptions)
    (base : String) (h : doc.export_to_markdown = .ok md) :
    ∃ vres, (if ((tablesStage doc opts base).1 == 0 && opts.extract_values) then
        fallbackStage doc base else .ok (0, [])) = .ok vres := by
  by_cases hfb : ((tablesStage doc opts base).1 == 0 && opts.extract_values) = true
  · rw [if_pos hfb, fallbackStage_ok_of base h]
    exact ⟨_, rfl⟩
  · rw [Bool.not_eq_true] at hfb
    rw [hfb]
    exact ⟨(0, []), rfl⟩

theorem tablesStage_of_no_tables {doc : Doc} (opts : ExportOptions)
    (base : String) (h : collectTables doc.tables = []) :
    tablesStage doc opts base = (0, []) := by
  simp [tablesStage, h]

/-- Packages the two recurring progress-channel obligations for an event
list with known percent projection. -/
theorem eventsProps (ps : List Nat) {l : List (String × Nat)}
    (h : l.map Prod.snd = ps)
    (hps : ∀ p ∈ ps, p ∈ milestones ∧ p ≤ 100)
    (hch : ps.Chain' (· ≤ ·)) :
    (∀ ev ∈ l, ev.2 ∈ milestones ∧ ev.2 ≤ 100) ∧
    (l.map Prod.snd).Chain' (· ≤ ·) :=
  ⟨fun ev hev => hps ev.2 (h ▸ List.mem_map_of_mem Prod.snd hev), h ▸ hch⟩

/-- C9: across one invocation every emitted percent is one of the fixed
milestones 10, 50, 60, 65, 70, 80, 90, 100 and hence lies in `0..=100`,
the percent sequence is monotonically non-decreasing, 70 is emitted only on
the fallback path (zero collected tables with the extract-values option
on, under a successful conversion), and an absent callback produces no
emission (and, the embedding being total, no error). -/
theorem C9_progress_milestones (conv : Except String Doc)
    (opts : ExportOptions) (fn base : String) (cb : Bool) :
    (∀ ev ∈ (process conv opts fn base cb).2, ev.2 ∈ milestones ∧ ev.2 ≤ 100) ∧
    ((process conv opts fn base cb).2.map Prod.snd).Chain' (· ≤ ·) ∧
    ((∃ ev ∈ (process conv opts fn base cb).2, ev.2 = 70) →
      ∃ doc, conv = .ok doc ∧ (tablesStage doc opts base).1 = 0 ∧
        opts.extract_values = true) ∧
    (cb = false → (process conv opts fn base cb).2 = []) := by
  rcases conv with e | doc
  · rw [process_conv_err]
    cases cb
    · obtain ⟨hA, hB⟩ := eventsProps [] (l := if false = true then
        [("Converting document...", 10)] else []) (by simp) (by decide)
        (by simp [List.chain'_cons])
      exact ⟨hA, hB, by rintro ⟨ev, hev, _⟩; simp at hev, fun _ => by simp⟩
    · obtain ⟨hA, hB⟩ := eventsProps [10] (l := if true = true then
        [("Converting document...", 10)] else []) (by simp) (by decide)
        (by simp [List.chain'_cons])
      refine ⟨hA, hB, ?_, by simp⟩
      rintro ⟨ev, hev, h70⟩
      simp only [if_true, List.mem_singleton] at hev
      rw [hev] at h70
      simp at h70
  · rcases hj : jsonStage doc opts base with ej | fs1
    · rw [process_json_err fn cb hj]
      cases cb
      · obtain ⟨hA, hB⟩ := eventsProps [] (l := if false = true then
          [("Converting document...", 10),
           ("Document converted, exporting...", 50)] else []) (by simp)
          (by decide) (by simp [List.chain'_cons])
        exact ⟨hA, hB, by rintro ⟨ev, hev, _⟩; simp at hev, fun _ => by simp⟩
      · obtain ⟨hA, hB⟩ := eventsProps [10, 50] (l := if true = true then
          [("Converting document...", 10),
           ("Document converted, exporting...", 50)] else []) (by simp)
          (by decide) (by simp [List.chain'_cons])
        refine ⟨hA, hB, ?_, by simp⟩
        rintro ⟨ev, hev, h70⟩
        simp only [if_true, List.mem_cons, List.not_mem_nil, or_false] at hev
        rcases hev with hev | hev <;> (rw [hev] at h70; simp at h70)
    · rcases ht : textHtmlStage doc opts base with et | fs2
      · rw [process_text_err fn cb hj ht]
        cases cb
        · obtain ⟨hA, hB⟩ := eventsProps [] (l := if false = true then
            [("Converting document...", 10),
             ("Document converted, exporting...", 50),
             ("Exporting text formats...", 60)] else []) (by simp)
            (by decide) (by simp [List.chain'_cons])
          exact ⟨hA, hB, by rintro ⟨ev, hev, _⟩; simp at hev, fun _ => by simp⟩
        · obtain ⟨hA, hB⟩ := eventsProps [10, 50, 60] (l := if true = true then
            [("Converting document...", 10),
             ("Document converted, exporting...", 50),
             ("Exporting text formats...", 60)] else []) (by simp)
            (by decide) (by simp [List.chain'_cons])
          refine ⟨hA, hB, ?_, by simp⟩
          rintro ⟨ev, hev, h70⟩
          simp only [if_true, List.mem_cons, List.not_mem_nil, or_false] at hev
          rcases hev with hev | hev | hev <;> (rw [hev] at h70; simp at h70)
      · by_cases hfb : ((tablesStage doc opts base).1 == 0 &&
            opts.extract_values) = true
        · have hfb2 : (tablesStage doc opts base).1 = 0 ∧
              opts.extract_values = true := by
            simpa using hfb
          rcases hv : fallbackStage doc base with ev2 | vres
          · rw [process_fb_err fn cb hj ht hfb hv]
            cases cb
            · obtain ⟨hA, hB⟩ := eventsProps [] (l := if false = true then
                [("Converting document...", 10),
                 ("Document converted, exporting...", 50),
                 ("Exporting text formats...", 60), ("Extracting tables...", 65),
                 ("No tables found, extracting numeric values...", 70)] else [])
                (by simp) (by decide) (by simp [List.chain'_cons])
              exact ⟨hA, hB, by rintro ⟨ev, hev, _⟩; simp at hev,
                fun _ => by simp⟩
            · obtain ⟨hA, hB⟩ := eventsProps [10, 50, 60, 65, 70]
                (l := if true = true then
                [("Converting document...", 10),
                 ("Document converted, exporting...", 50),
                 ("Exporting text formats...", 60), ("Extracting tables...", 65),
                 ("No tables found, extracting numeric values...", 70)] else [])
                (by simp) (by decide) (by simp [List.chain'_cons])
              exact ⟨hA, hB, fun _ => ⟨doc, rfl, hfb2.1, hfb2.2⟩, by simp⟩
          · have hv2 : (if ((tablesStage doc opts base).1 == 0 &&
                opts.extract_values) then fallbackStage doc base
                else .ok (0, [])) = .ok vres := by rw [if_pos hfb, hv]
            rw [process_ok_eq fn cb hj ht hv2, if_pos hfb]
            cases cb
            · obtain ⟨hA, hB⟩ := eventsProps []
                (l := (if false = true then
                  [("Converting document...", 10),
                   ("Document converted, exporting...", 50),
                   ("Exporting text formats...", 60),
                   ("Extracting tables...", 65)] ++
                  [("No tables found, extracting numeric values...", 70)] ++
                  [("Extracting pictures...", 80),
                   ("Exporting key-value data...", 90), ("Complete!", 100)]
                 else [])) (by simp) (by decide) (by simp [List.chain'_cons])
              exact ⟨hA, hB, by rintro ⟨ev, hev, _⟩; simp at hev,
                fun _ => by simp⟩
            · obtain ⟨hA, hB⟩ := eventsProps [10, 50, 60, 65, 70, 80, 90, 100]
                (l := (if true = true then
                  [("Converting document...", 10),
                   ("Document converted, exporting...", 50),
                   ("Exporting text formats...", 60),
                   ("Extracting tables...", 65)] ++
                  [("No tables found, extracting numeric values...", 70)] ++
                  [("Extracting pictures...", 80),
                   ("Exporting key-value data...", 90), ("Complete!", 100)]
                 else [])) (by simp) (by decide) (by simp [List.chain'_cons])
              exact ⟨hA, hB, fun _ => ⟨doc, rfl, hfb2.1, hfb2.2⟩, by simp⟩
        · rw [Bool.not_eq_true] at hfb
          have hv2 : (if ((tablesStage doc opts base).1 == 0 &&
              opts.extract_values) then fallbackStage doc base
              else .ok (0, [])) = .ok (0, []) := by rw [hfb]; rfl
          rw [process_ok_eq fn cb hj ht hv2, hfb]
          cases cb
          · obtain ⟨hA, hB⟩ := eventsProps []
              (l := (if false = true then
                [("Converting document...", 10),
                 ("Document converted, exporting...", 50),
                 ("Exporting text formats...", 60),
                 ("Extracting tables...", 65)] ++
                (if false = true then
                  [("No tables found, extracting numeric values...", 70)]
                 else []) ++
                [("Extracting pictures...", 80),
                 ("Exporting key-value data...", 90), ("Complete!", 100)]
               else [])) (by simp) (by decide) (by simp [List.chain'_cons])
            exact ⟨hA, hB, by rintro ⟨ev, hev, _⟩; simp at hev, fun _ => by simp⟩
          · obtain ⟨hA, hB⟩ := eventsProps [10, 50, 60, 65, 80, 90, 100]
              (l := (if true = true then
                [("Converting document...", 10),
                 ("Document converted, exporting...", 50),
                 ("Exporting text formats...", 60),
                 ("Extracting tables...", 65)] ++
                (if false = true then
                  [("No tables found, extracting numeric values...", 70)]
                 else []) ++
                [("Extracting pictures...", 80),
                 ("Exporting key-value data...", 90), ("Complete!", 100)]
               else [])) (by simp) (by decide) (by simp [List.chain'_cons])
            refine ⟨hA, hB, ?_, by simp⟩
            rintro ⟨ev, hev, h70⟩
            simp only [if_true, Bool.false_eq_true, if_false, List.nil_append,
              List.append_assoc, List.mem_append, List.mem_cons,
              List.not_mem_nil, or_false] at hev
            rcases hev with (hev | hev | hev | hev) | hev | hev | hev <;>
              (rw [hev] at h70; simp at h70)

theorem C9_progress_milestones_witness :
    (∃ doc, (Except.ok docFallback : Except String Doc) = .ok doc ∧
      (tablesStage doc ({} : ExportOptions) "f").1 = 0 ∧
      ({} : ExportOptions).extract_values = true) ∧
    (process (.ok docFallback) {} "f.pdf" "f" false).2 = [] :=
  ⟨(C9_progress_milestones (.ok docFallback) {} "f.pdf" "f" true).2.2.1
     ⟨("No tables found, extracting numeric values...", 70), by decide, rfl⟩,
   (C9_progress_milestones (.ok docFallback) {} "f.pdf" "f" false).2.2.2 rfl⟩

/-- C1 counterexample: a document whose conversion succeeded but whose
markdown rendering raises makes the whole run fail with the
error-processing message and an empty artifact list: a failure inside the
markdown export stage is not caught at that stage's boundary, sibling
artifact production is aborted, and `success` is `false` although
conversion succeeded — so the claimed per-stage guarding (and the
"exactly when conversion fails" characterisation) is false. -/
theorem C1_counterexample :
    (process (.ok docMdFails) {} "f.pdf" "f" false).1.success = false ∧
    (process (.ok docMdFails) {} "f.pdf" "f" false).1.message =
      "Error processing f.pdf: boom" ∧
    (process (.ok docMdFails) {} "f.pdf" "f" false).1.output_files = [] := by
  refine ⟨by decide, by decide, by decide⟩

/-- C1 amended: a conversion failure yields `success = false`, a message
holding the input file name and the underlying error text, and an empty
artifact list; the same failure shape results when an unguarded document
rendering fails after a successful conversion — the JSON dict export, or
the markdown rendering reached through the markdown stage, through the
HTML-fallback (markdown file off, HTML on, no usable native HTML export),
or through the value-extraction stage (text rendering of the fallback with
zero tables and the option on).  Guarding is per item, not per stage:
whenever conversion, the dict export and the markdown rendering succeed,
`success` is `true` — even if every single table, picture, key-value and
form item fails. -/
theorem C1_amended :
    (∀ (e : String) (opts : ExportOptions) (fn base : String) (cb : Bool),
      (process (.error e) opts fn base cb).1.success = false ∧
      (process (.error e) opts fn base cb).1.message =
        "Error processing " ++ fn ++ ": " ++ e ∧
      (process (.error e) opts fn base cb).1.output_files = []) ∧
    (∀ (doc : Doc) (opts : ExportOptions) (fn base : String) (cb : Bool)
       (d md : String),
      doc.export_to_dict = .ok d → doc.export_to_markdown = .ok md →
      (process (.ok doc) opts fn base cb).1.success = true) ∧
    (∀ (doc : Doc) (opts : ExportOptions) (fn base : String) (cb : Bool)
       (d e : String),
      doc.export_to_dict = .ok d → opts.markdown = true →
      doc.export_to_markdown = .error e →
      (process (.ok doc) opts fn base cb).1.success = false ∧
      (process (.ok doc) opts fn base cb).1.message =
        "Error processing " ++ fn ++ ": " ++ e ∧
      (process (.ok doc) opts fn base cb).1.output_files = []) ∧
    (∀ (doc : Doc) (opts : ExportOptions) (fn base : String) (cb : Bool)
       (e : String),
      opts.json = true → doc.export_to_dict = .error e →
      (process (.ok doc) opts fn base cb).1.success = false ∧
      (process (.ok doc) opts fn base cb).1.message =
        "Error processing " ++ fn ++ ": " ++ e ∧
      (process (.ok doc) opts fn base cb).1.output_files = []) ∧
    (∀ (doc : Doc) (opts : ExportOptions) (fn base : String) (cb : Bool)
       (d e : String),
      doc.export_to_dict = .ok d → opts.markdown = false →
      opts.html = true →
      (doc.export_to_html = none ∨
        ∃ e2, doc.export_to_html = some (.error e2)) →
      doc.export_to_markdown = .error e →
      (process (.ok doc) opts fn base cb).1.success = false ∧
      (process (.ok doc) opts fn base cb).1.message =
        "Error processing " ++ fn ++ ": " ++ e ∧
      (process (.ok doc) opts fn base cb).1.output_files = []) ∧
    (∀ (doc : Doc) (opts : ExportOptions) (fn base : String) (cb : Bool)
       (d e : String),
      doc.export_to_dict = .ok d → opts.markdown = false →
      (opts.html = false ∨ ∃ h, doc.export_to_html = some (.ok h)) →
      (tablesStage doc opts base).1 = 0 → opts.extract_values = true →
      doc.export_to_markdown = .error e →
      (process (.ok doc) opts fn base cb).1.success = false ∧
      (process (.ok doc) opts fn base cb).1.message =
        "Error processing " ++ fn ++ ": " ++ e ∧
      (process (.ok doc) opts fn base cb).1.output_files = []) := by
  refine ⟨?_, ?_, ?_, ?_, ?_, ?_⟩
  · intro e opts fn base cb
    rw [process_conv_err]
    exact ⟨rfl, rfl, rfl⟩
  · intro doc opts fn base cb d md hd hmd
    have h1 := jsonStage_ok_of opts base hd
    obtain ⟨fs2, h2⟩ := textHtmlStage_ok_of opts base hmd
    obtain ⟨vres, h3⟩ := fallbackIf_ok_of opts base hmd
    rw [process_ok_eq fn cb h1 h2 h3]
  · intro doc opts fn base cb d e hd hm he
    have h1 := jsonStage_ok_of opts base hd
    have h2 := textHtmlStage_err_of opts base hm he
    rw [process_text_err fn cb h1 h2]
    exact ⟨rfl, rfl, rfl⟩
  · intro doc opts fn base cb e hj he
    have h1 := jsonStage_err_of opts base hj he
    rw [process_json_err fn cb h1]
    exact ⟨rfl, rfl, rfl⟩
  · intro doc opts fn base cb d e hd hm hht hh he
    have h1 := jsonStage_ok_of opts base hd
    have h2 := textHtmlStage_err_via_html opts base hm hht hh he
    rw [process_text_err fn cb h1 h2]
    exact ⟨rfl, rfl, rfl⟩
  · intro doc opts fn base cb d e hd hm hh htc hev he
    have h1 := jsonStage_ok_of opts base hd
    obtain ⟨fs2, h2⟩ := textHtmlStage_ok_alt opts base hm hh
    have hfb : ((tablesStage doc opts base).1 == 0 && opts.extract_values) =
        true := by simp [htc, hev]
    have h3 := fallbackStage_err_of base he
    rw [process_fb_err fn cb h1 h2 hfb h3]
    exact ⟨rfl, rfl, rfl⟩

theorem C1_amended_witness :
    (process (.ok docAllItemsFail) {} "f.pdf" "f" true).1.success = true ∧
    (process (.ok docMdFails) {} "f.pdf" "f" true).1.success = false ∧
    (process (.ok docDictFails) {} "f.pdf" "f" true).1.success = false ∧
    (process (.ok docMdFails) ({ markdown := false } : ExportOptions)
      "f.pdf" "f" true).1.success = false ∧
    (process (.ok docMdFails)
      ({ markdown := false, html := false } : ExportOptions)
      "f.pdf" "f" true).1.success = false :=
  ⟨C1_amended.2.1 docAllItemsFail {} "f.pdf" "f" true "d" "" rfl rfl,
   (C1_amended.2.2.1 docMdFails {} "f.pdf" "f" true "d" "boom" rfl rfl rfl).1,
   (C1_amended.2.2.2.1 docDictFails {} "f.pdf" "f" true "dict boom"
     rfl rfl).1,
   (C1_amended.2.2.2.2.1 docMdFails ({ markdown := false } : ExportOptions)
     "f.pdf" "f" true "d" "boom" rfl rfl rfl (Or.inl rfl) rfl).1,
   (C1_amended.2.2.2.2.2 docMdFails
     ({ markdown := false, html := false } : ExportOptions)
     "f.pdf" "f" true "d" "boom" rfl rfl (Or.inl rfl) rfl rfl rfl).1⟩

/-- C2: with a successful conversion and successful unguarded renderings,
fallback value extraction runs exactly when zero tables were successfully
exported and the extract-values option is on.  When it finds at least one
value, exactly three extracted-values artifacts are appended after the
table artifacts — the JSON, the CSV, and the Excel workbook carrying the
raw value list together with the per-tag summary `summaryByTag` (count,
sum, mean, min, max of the numeric values, each rounded to two
decimals) —, `extracted_values_count` is the number of values, and the
message carries the tables-not-found-but-values-extracted qualifier.  With
zero tables and zero values the message carries the neither-found
qualifier instead; when the fallback does not fire no extracted-values
artifact is appended and the count is zero. -/
theorem C2_fallback_value_extraction :
    (∀ (doc : Doc) (opts : ExportOptions) (fn base : String) (cb : Bool)
       (d md : String),
      doc.export_to_dict = .ok d →
      doc.export_to_markdown = .ok md →
      (tablesStage doc opts base).1 = 0 →
      opts.extract_values = true →
      extractNumericValues md ≠ [] →
      ∃ fs1 fs2,
        jsonStage doc opts base = .ok fs1 ∧
        textHtmlStage doc opts base = .ok fs2 ∧
        (process (.ok doc) opts fn base cb).1.extracted_values_count =
          (extractNumericValues md).length ∧
        (process (.ok doc) opts fn base cb).1.message =
          "Successfully processed " ++ fn ++ " (no tables found, extracted " ++
            toString (extractNumericValues md).length ++ " numeric values)" ∧
        (process (.ok doc) opts fn base cb).1.output_files =
          (fs1 ++ fs2 ++ (tablesStage doc opts base).2).map Prod.fst ++
          [base ++ "_extracted_values.json", base ++ "_extracted_values.csv",
           base ++ "_extracted_values.xlsx"] ++
          ((picturesStage doc opts base).2 ++ kvStage doc base ++
            formStage doc base).map Prod.fst) ∧
    (∀ (base : String) (vs : List ExtractedValue),
      valuesArtifacts base vs =
        [(base ++ "_extracted_values.json", FileContent.valuesJson vs),
         (base ++ "_extracted_values.csv", FileContent.valuesCsv vs),
         (base ++ "_extracted_values.xlsx",
          FileContent.valuesXlsx vs (summaryByTag vs))]) ∧
    (∀ (doc : Doc) (opts : ExportOptions) (fn base : String) (cb : Bool)
       (d md : String),
      doc.export_to_dict = .ok d →
      doc.export_to_markdown = .ok md →
      (tablesStage doc opts base).1 = 0 →
      opts.extract_values = true →
      extractNumericValues md = [] →
      (process (.ok doc) opts fn base cb).1.extracted_values_count = 0 ∧
      (process (.ok doc) opts fn base cb).1.message =
        "Successfully processed " ++ fn ++
          " (no tables or numeric values found)") ∧
    (∀ (doc : Doc) (opts : ExportOptions) (fn base : String) (cb : Bool)
       (d md : String),
      doc.export_to_dict = .ok d →
      doc.export_to_markdown = .ok md →
      ¬((tablesStage doc opts base).1 = 0 ∧ opts.extract_values = true) →
      ∃ fs1 fs2,
        jsonStage doc opts base = .ok fs1 ∧
        textHtmlStage doc opts base = .ok fs2 ∧
        (process (.ok doc) opts fn base cb).1.extracted_values_count = 0 ∧
        (process (.ok doc) opts fn base cb).1.output_files =
          (fs1 ++ fs2 ++ (tablesStage doc opts base).2).map Prod.fst ++
          ((picturesStage doc opts base).2 ++ kvStage doc base ++
            formStage doc base).map Prod.fst) := by
  refine ⟨?_, fun _ _ => rfl, ?_, ?_⟩
  · intro doc opts fn base cb d md hd hmd htc hev hvne
    have h1 := jsonStage_ok_of opts base hd
    obtain ⟨fs2, h2⟩ := textHtmlStage_ok_of opts base hmd
    have hfb : ((tablesStage doc opts base).1 == 0 && opts.extract_values) =
        true := by simp [htc, hev]
    have hvs : (extractNumericValues md).isEmpty = false := by
      simpa [List.isEmpty_iff] using hvne
    have h3 : (if ((tablesStage doc opts base).1 == 0 && opts.extract_values)
        then fallbackStage doc base else .ok (0, [])) =
        .ok ((extractNumericValues md).length,
          valuesArtifacts base (extractNumericValues md)) := by
      rw [if_pos hfb, fallbackStage_ok_of base hmd, hvs]
      simp
    refine ⟨_, fs2, h1, h2, ?_, ?_, ?_⟩
    · rw [process_ok_eq fn cb h1 h2 h3]
    · rw [process_ok_eq fn cb h1 h2 h3]
      have hlen : 0 < (extractNumericValues md).length :=
        List.length_pos.mpr hvne
      simp [successMsg, htc, hlen]
    · rw [process_ok_eq fn cb h1 h2 h3]
      simp [valuesArtifacts, List.map_append]
  · intro doc opts fn base cb d md hd hmd htc hev hvn
    have h1 := jsonStage_ok_of opts base hd
    obtain ⟨fs2, h2⟩ := textHtmlStage_ok_of opts base hmd
    have hfb : ((tablesStage doc opts base).1 == 0 && opts.extract_values) =
        true := by simp [htc, hev]
    have h3 : (if ((tablesStage doc opts base).1 == 0 && opts.extract_values)
        then fallbackStage doc base else .ok (0, [])) = .ok (0, []) := by
      rw [if_pos hfb, fallbackStage_ok_of base hmd, hvn]
      simp
    constructor
    · rw [process_ok_eq fn cb h1 h2 h3]
    · rw [process_ok_eq fn cb h1 h2 h3]
      simp [successMsg, htc]
  · intro doc opts fn base cb d md hd hmd hno
    have h1 := jsonStage_ok_of opts base hd
    obtain ⟨fs2, h2⟩ := textHtmlStage_ok_of opts base hmd
    have hfb : ((tablesStage doc opts base).1 == 0 && opts.extract_values) =
        false := by
      rw [Bool.and_eq_false_iff]
      by_cases h : (tablesStage doc opts base).1 = 0
      · right
        by_cases h2 : opts.extract_values = true
        · exact absurd ⟨h, h2⟩ hno
        · simpa using h2
      · left
        simpa using h
    have h3 : (if ((tablesStage doc opts base).1 == 0 && opts.extract_values)
        then fallbackStage doc base else .ok (0, [])) = .ok (0, []) := by
      rw [hfb]
      rfl
    refine ⟨_, fs2, h1, h2, ?_, ?_⟩
    · rw [process_ok_eq fn cb h1 h2 h3]
    · rw [process_ok_eq fn cb h1 h2 h3]
      simp [List.map_append]

theorem C2_fallback_value_extraction_witness :
    ∃ fs1 fs2,
      jsonStage docFallback {} "f" = .ok fs1 ∧
      textHtmlStage docFallback {} "f" = .ok fs2 ∧
      (process (.ok docFallback) {} "f.pdf" "f" true).1.extracted_values_count =
        (extractNumericValues "Total due: $42.00 by 2024-03-01").length ∧
      (process (.ok docFallback) {} "f.pdf" "f" true).1.message =
        "Successfully processed f.pdf (no tables found, extracted " ++
          toString (extractNumericValues
            "Total due: $42.00 by 2024-03-01").length ++ " numeric values)" ∧
      (process (.ok docFallback) {} "f.pdf" "f" true).1.output_files =
        (fs1 ++ fs2 ++ (tablesStage docFallback {} "f").2).map Prod.fst ++
        ["f_extracted_values.json", "f_extracted_values.csv",
         "f_extracted_values.xlsx"] ++
        ((picturesStage docFallback {} "f").2 ++ kvStage docFallback "f" ++
          formStage docFallback "f").map Prod.fst :=
  C2_fallback_value_extraction.1 docFallback {} "f.pdf" "f" true "d"
    "Total due: $42.00 by 2024-03-01" rfl rfl (by decide) rfl (by decide)

end PdfX
